import Mathlib

/-!
# Verification of the circuit-cache core (`qiskit_aqua/utils/circuit_cache.py`)

A shallow embedding of the caching module: the program and qobj models, the signature
matcher, the cache store (`cache_circuit`), the patcher (`load_qobj_from_cache`)
and the persistence loader (`try_loading_cache_from_file`), together with
theorems settling the specification claims about them.

Modelling conventions:
* Numeric gate parameters are modelled as `Rat`; the `np.array(..., dtype=float)
  .tolist()` conversion applied to them is value-preserving in this model
  (`npFloatList`).
* Python lists are Lean lists; `list.insert(i, x)` is `pyInsert` (which clamps
  the index to the length, exactly as Python does); `list[i]` reads are
  `List.get?` with a `none` result modelling an `IndexError`.
* Python dicts keyed by signature strings are association lists (`alGet`/`alSet`)
  preserving insertion order, which is what `dict.items()` iterates in.
* The signature string `gate_type + qubits.__str__()` is modelled as the pair
  `(gate_type, qubits)`; gate names contain no `[` character, so the string
  concatenation is injective and equal signatures coincide with equal pairs.
* `copy.deepcopy` is the identity on values (the state is modelled functionally,
  so mutations are explicit state updates and copies are just values).
* Exceptions (`KeyError`, `IndexError`, the two `Exception(...)` raises of the
  matcher, and the `AquaError` of the patcher) become `CacheError` values.
-/

/-- A register of the source circuit: `QuantumRegister`/`ClassicalRegister`
(`isQuantum` distinguishes them), with its name and size. `Circuit.regs` is the
ordered register dictionary `input_circuit.regs`. -/
structure Reg where
  name : String
  size : Nat
  isQuantum : Bool
  deriving DecidableEq

/-- An uncompiled gate as it appears in `raw_gates`: its `name`, its `arg` list
of `(register, index)` pairs, and its `param` list of numeric parameters
(every 2018-era terra `Instruction` carries a `param` attribute, possibly
empty). -/
structure Gate where
  name : String
  arg : List (Reg × Nat)
  param : List Rat
  deriving DecidableEq

/-- One entry of `input_circuit.data`: either a plain gate or a
`CompositeGate`, the latter modelled by the list its `instruction_list()`
returns. -/
inductive CircuitItem where
  | gate (g : Gate)
  | composite (gs : List Gate)
  deriving DecidableEq

/-- The source circuit: name, ordered register dictionary, gate data. -/
structure Circuit where
  name : String
  regs : List Reg
  data : List CircuitItem
  deriving DecidableEq

/-- A compiled qobj instruction: name, resolved qubit indices, and an optional
`params` attribute (`none` models an instruction such as `measure` that has no
`params` attribute; `getattr(compiled_gate, 'params', [])` is `params.getD []`).
-/
structure QobjInstruction where
  name : String
  qubits : List Nat
  params : Option (List Rat)
  deriving DecidableEq

/-- The experiment header; `compiled_circuit_qasm` is `none` once
`cache_circuit` has deleted the attribute. -/
structure ExperimentHeader where
  name : String
  compiled_circuit_qasm : Option String
  deriving DecidableEq

/-- One compiled experiment (sub-job) of a qobj. -/
structure QobjExperiment where
  header : ExperimentHeader
  instructions : List QobjInstruction
  deriving DecidableEq

/-- A compiled qobj: the fields the cache touches, i.e. its experiment list. -/
structure Qobj where
  experiments : List QobjExperiment
  deriving DecidableEq

/-- One per-program mapping: position `i` holds the source-operation index
mapped to compiled instruction `i`. -/
abbrev Mapping := List Nat

/-- The mappings of one chunk: one `Mapping` per program slot. -/
abbrev ChunkMappings := List Mapping

/-- The global `mappings` list: one `ChunkMappings` per chunk. -/
abbrev AllMappings := List ChunkMappings

/-- The errors the modelled code can raise. `keyError` is an uncaught Python
`KeyError` (dict subscript on a missing key), `indexError` an uncaught
`IndexError`/`TypeError` from a failed list subscript, `extraInQobj` and
`extraInCircuit` are the two `Exception("Circuit shape does not match qobj...")`
raises of `cache_circuit`, `aquaError ci gn` is the `AquaError` gate-mismatch of
`load_qobj_from_cache` (carrying `cache_index` and `gate_num`), `noneError`
models subscripting the `None` globals, and `loadError` a failed
`open`/`pickle.load` of the cache file. -/
inductive CacheError where
  | keyError (sig : String × List Nat)
  | extraInQobj (sig : String × List Nat)
  | extraInCircuit (sig : String × List Nat)
  | aquaError (cacheIndex gateNum : Nat)
  | indexError
  | noneError
  | loadError (msg : String)
  deriving DecidableEq

/-- Whether an error is one of the two structural-mismatch raises
(`"Circuit shape does not match qobj, ..."`). -/
def CacheError.isStructuralMismatch : CacheError → Bool
  | .extraInQobj _ => true
  | .extraInCircuit _ => true
  | _ => false

/-- Python `list.insert(i, x)`: inserts at `i`, clamping to the end when
`i ≥ len` (so it never fails). -/
def pyInsert (l : List α) (i : Nat) (a : α) : List α :=
  l.take i ++ a :: l.drop i

/-- A structural signature: the modelled `type_and_qubits` key
`gate_type + qubits.__str__()`, as the pair `(gate_type, qubits)`. -/
abbrev Sig := String × List Nat

/-- `qreg_sizes`: sizes of the quantum registers, in dictionary order. -/
def qreg_sizes (c : Circuit) : List Nat :=
  (c.regs.filter (fun r => r.isQuantum)).map (fun r => r.size)

/-- `qreg_indeces[name]`: the dict comprehension
`{name: sum(qreg_sizes[0:i]) for i, name in enumerate(input_circuit.regs)}`.
Note the source enumerates all registers but slices the quantum-only size list,
reproduced here verbatim. `none` models a `KeyError` on an unknown name. -/
def qreg_indeces (c : Circuit) (name : String) : Option Nat :=
  (c.regs.enum.find? (fun p => p.2.name = name)).map
    (fun p => ((qreg_sizes c).take p.1).sum)

/-- The resolved flat qubit indices of a gate:
`[qubit + qreg_indeces[reg.name] for reg, qubit in regs if isinstance(reg, QuantumRegister)]`.
All circuits considered here are well-formed (gates reference registers of their own
circuit), so the `getD 0` default of a failed register lookup is never taken. -/
def gateQubits (c : Circuit) (g : Gate) : List Nat :=
  (g.arg.filter (fun rq => rq.1.isQuantum)).map
    (fun rq => rq.2 + (qreg_indeces c rq.1.name).getD 0)

/-- The structural signature of a source gate. -/
def gateSig (c : Circuit) (g : Gate) : Sig := (g.name, gateQubits c g)

/-- The structural signature of a compiled instruction
(`compiled_gate.name + compiled_gate.qubits.__str__()`). -/
def instSig (inst : QobjInstruction) : Sig := (inst.name, inst.qubits)

/-- Unrolling of `input_circuit.data`: composite gates contribute their
`instruction_list()`, plain gates themselves. -/
def rawGates (data : List CircuitItem) : List Gate :=
  (data.map (fun it => match it with
    | .gate g => [g]
    | .composite gs => gs)).flatten

/-- Ordered-dictionary lookup on the `op_graph` association list. -/
def alGet : List (Sig × List Nat) → Sig → Option (List Nat)
  | [], _ => none
  | (k, v) :: rest, s => if k = s then some v else alGet rest s

/-- Ordered-dictionary store on the `op_graph` association list: replaces the
entry in place when present, appends it otherwise (Python dict semantics). -/
def alSet : List (Sig × List Nat) → Sig → List Nat → List (Sig × List Nat)
  | [], k, v => [(k, v)]
  | (k', v') :: rest, k, v =>
      if k' = k then (k, v) :: rest else (k', v') :: alSet rest k v

/-- Total number of source indices held by the queues of an `op_graph`. -/
def totalSize (og : List (Sig × List Nat)) : Nat :=
  (og.map (fun kv => kv.2.length)).sum

/-- Lines 102–108 of `cache_circuit`: scan `raw_gates` in order and append each
index to its signature's queue
(`op_graph[type_and_qubits] = op_graph.get(type_and_qubits, []) + [i]`).
`i` is the index of the first gate of `raw`. -/
def buildOpGraphAux (c : Circuit) : List Gate → Nat → List (Sig × List Nat) → List (Sig × List Nat)
  | [], _, og => og
  | g :: rest, i, og =>
      buildOpGraphAux c rest (i + 1)
        (alSet og (gateSig c g) ((alGet og (gateSig c g)).getD [] ++ [i]))

/-- The `op_graph` dict built from the whole unrolled gate list. -/
def buildOpGraph (c : Circuit) (raw : List Gate) : List (Sig × List Nat) :=
  buildOpGraphAux c raw 0 []

/-- Lines 110–121 of `cache_circuit`: scan the compiled instructions in order;
for each, look up its signature's queue (`KeyError` when the signature is
absent), pop the front index when the queue is non-empty (raising the
`extra ... instruction in qobj` exception when it is empty), and append the
popped index to `mapping` when the name/qubits re-check passes
(`mapping.insert(compiled_gate_index, ...)` with `compiled_gate_index` equal to
the current length). `i` is the index of the first instruction of the list. -/
def matchLoop (c : Circuit) (raw : List Gate) :
    List QobjInstruction → Nat → List (Sig × List Nat) → List Nat →
    Except CacheError (List (Sig × List Nat) × List Nat)
  | [], _, og, mapping => .ok (og, mapping)
  | inst :: rest, i, og, mapping =>
    let tq : Sig := (inst.name, inst.qubits)
    match alGet og tq with
    | none => .error (.keyError tq)
    | some ops =>
      match ops with
      | [] => .error (.extraInQobj tq)
      | uncompiledGateIndex :: tl =>
        let og' := alSet og tq tl
        match raw.get? uncompiledGateIndex with
        | none => .error .indexError
        | some g =>
          let qubits := gateQubits c g
          let mapping' :=
            if inst.name = g.name ∧ inst.qubits = qubits then
              pyInsert mapping i uncompiledGateIndex
            else mapping
          matchLoop c raw rest (i + 1) og' mapping'

/-- The complete per-program signature matcher of `cache_circuit` (lines
91–125, minus the store into `mappings`): build `op_graph`, run the matching
loop, and fail with the `extra ... in circuit` exception when any queue is left
non-empty. -/
def matchCircuit (c : Circuit) (insts : List QobjInstruction) :
    Except CacheError (List Nat) :=
  let raw := rawGates c.data
  match matchLoop c raw insts 0 (buildOpGraph c raw) [] with
  | .error e => .error e
  | .ok (og', mapping) =>
    match og'.find? (fun kv => 0 < kv.2.length) with
    | some kv => .error (.extraInCircuit kv.1)
    | none => .ok mapping

/-- The module-level mutable state of `circuit_cache.py`. `use_caching` and
`persist_cache` are carried for completeness but not consulted by the
operations modelled here, mirroring the source where they are only read by
callers. -/
structure CacheState where
  qobjs : Option (List Qobj)
  mappings : Option AllMappings
  misses : Nat
  try_reusing_qobjs : Bool
  naughty_mode : Bool
  cache_file : Option String
  deriving DecidableEq

/-- The initial module state (the values of the globals at import time). -/
def initialCacheState : CacheState :=
  { qobjs := none, mappings := none, misses := 0, try_reusing_qobjs := true,
    naughty_mode := false, cache_file := none }

/-- `clear_cache()`. -/
def clear_cache (s : CacheState) : CacheState :=
  { s with qobjs := none, mappings := none, misses := 0, try_reusing_qobjs := true }

/-- The loop body of `cache_circuit` over `enumerate(circuits)` (lines
87–125): per circuit, delete the compiled qasm from the stored copy, run the
signature matcher against the *original* `qobj` argument's experiment, store
the resulting mapping at `mappings[chunk][circ_num]`, and then fail if any
per-signature queue is left non-empty. Failed list subscripts surface as
`indexError`; the state reached so far is returned alongside the error, since
the Python globals keep all mutations made before a raise. -/
def cacheCircuitLoop (qobj : Qobj) (chunk : Nat) :
    List (Nat × Circuit) → List Qobj → AllMappings →
    (List Qobj × AllMappings) × Except CacheError Unit
  | [], qs, ms => ((qs, ms), .ok ())
  | (circ_num, c) :: rest, qs, ms =>
    match qs.get? chunk with
    | none => ((qs, ms), .error .indexError)
    | some qc =>
      match qc.experiments.get? circ_num with
      | none => ((qs, ms), .error .indexError)
      | some exp =>
        let qs1 := qs.set chunk { qc with experiments :=
          (qc.experiments.set circ_num
            { exp with header := { exp.header with compiled_circuit_qasm := none } }) }
        match qobj.experiments.get? circ_num with
        | none => ((qs1, ms), .error .indexError)
        | some origExp =>
          let raw := rawGates c.data
          match matchLoop c raw origExp.instructions 0 (buildOpGraph c raw) [] with
          | .error e => ((qs1, ms), .error e)
          | .ok (og', mapping) =>
            match ms.get? chunk with
            | none => ((qs1, ms), .error .indexError)
            | some msChunk =>
              if circ_num < msChunk.length then
                let ms1 := ms.set chunk (msChunk.set circ_num mapping)
                match og'.find? (fun kv => 0 < kv.2.length) with
                | some kv => ((qs1, ms1), .error (.extraInCircuit kv.1))
                | none => cacheCircuitLoop qobj chunk rest qs1 ms1
              else ((qs1, ms), .error .indexError)

/-- `cache_circuit(qobj, circuits, chunk)` (lines 56–131): default the `None`
globals to empty lists, insert a copy of the qobj and a fresh
`[[] for i in range(len(circuits))]` mappings slot at position `chunk`
(Python `list.insert` — note this *inserts*, shifting existing entries), then
run the per-circuit matcher loop. The final `pickle` dump of the cache to
`cache_file` (lines 126–131) is external I/O and not part of the in-memory
state modelled here. -/
def cache_circuit (s : CacheState) (qobj : Qobj) (circuits : List Circuit)
    (chunk : Nat) : CacheState × Except CacheError Unit :=
  let qs0 := s.qobjs.getD []
  let ms0 := s.mappings.getD []
  let qs1 := pyInsert qs0 chunk qobj
  let ms1 := pyInsert ms0 chunk (List.replicate circuits.length [])
  match cacheCircuitLoop qobj chunk circuits.enum qs1 ms1 with
  | ((qs2, ms2), r) => ({ s with qobjs := some qs2, mappings := some ms2 }, r)

/-- The `np.array(uncompiled_gate.param, dtype=float).tolist()` conversion of
line 184: elementwise conversion to the target float representation, which is
value-preserving on the numeric model used here. -/
def npFloatList (xs : List Rat) : List Rat := xs

/-- The payload of the pickled cache file: the `{'qobjs': ..., 'mappings': ...}`
dictionary. `qobj_to_dict`/`Qobj.from_dict` round-trip the qobjs, so the
content is modelled directly as qobjs. -/
structure CacheFileContent where
  qobjs : List Qobj
  mappings : AllMappings
  deriving DecidableEq

/-- `try_loading_cache_from_file()` (lines 133–144). `fs` is the ambient file
system: the result of `open(cache_file, "rb")` followed by `pickle.load`
(`.error` models a missing file or a corrupt blob). The function attempts the
load only when `qobjs is None` and a non-empty `cache_file` is configured; a
failed load propagates its exception unhandled, leaving the state unchanged. -/
def try_loading_cache_from_file (fs : Except CacheError CacheFileContent)
    (s : CacheState) : CacheState × Except CacheError Unit :=
  match s.qobjs, s.cache_file with
  | none, some f =>
    if 0 < f.length then
      match fs with
      | .error e => (s, .error e)
      | .ok content =>
          ({ s with qobjs := some content.qobjs, mappings := some content.mappings },
           .ok ())
    else (s, .ok ())
  | _, _ => (s, .ok ())

/-- Lines 154–156 of `load_qobj_from_cache`: when qobj reuse is on, the cache
is non-`None` and `chunk` is beyond the cached chunks, insert chunk 0's
mappings (aliased) and a deep copy of chunk 0's qobj at position `chunk`
(Python `list.insert`, which clamps to the end of the list). The `mappings`
insert happens first, as in the source, so a failing `qobjs[0]` subscript
leaves the mappings already extended. -/
def reuseChunkStep (s : CacheState) (chunk : Nat) : CacheState × Except CacheError Unit :=
  if s.try_reusing_qobjs = true ∧ s.qobjs.isSome = true ∧ (s.qobjs.getD []).length ≤ chunk then
    match s.mappings with
    | none => (s, .error .noneError)
    | some ms =>
      match ms.get? 0 with
      | none => (s, .error .indexError)
      | some m0 =>
        let s1 := { s with mappings := some (pyInsert ms chunk m0) }
        match (s.qobjs.getD []).get? 0 with
        | none => (s1, .error .indexError)
        | some q0 =>
          ({ s1 with qobjs := some (pyInsert (s.qobjs.getD []) chunk q0) }, .ok ())
  else (s, .ok ())

/-- Lines 160–164 of `load_qobj_from_cache`: for chunk 0 only, when the cached
qobj holds fewer experiments than the batch position being patched, insert a
copy of experiment 0 at `circ_num` and alias mapping slot 0 into
`mappings[0][circ_num]`. The condition subscripts `qobjs[chunk]`, and the body
subscripts `qobjs[0].experiments[0]` and `mappings[0][0]`, each a potential
`IndexError`. -/
def reuseExperimentStep (try_reusing : Bool) (chunk circ_num : Nat)
    (qs : List Qobj) (ms : AllMappings) :
    (List Qobj × AllMappings) × Except CacheError Unit :=
  if try_reusing = true ∧ chunk = 0 ∧ 0 < circ_num then
    match qs.get? chunk with
    | none => ((qs, ms), .error .indexError)
    | some qc =>
      if qc.experiments.length ≤ circ_num then
        match qs.get? 0 with
        | none => ((qs, ms), .error .indexError)
        | some q0 =>
          match q0.experiments.get? 0 with
          | none => ((qs, ms), .error .indexError)
          | some e0 =>
            let qs' := qs.set 0 { q0 with experiments := (pyInsert q0.experiments circ_num e0) }
            match ms.get? 0 with
            | none => ((qs', ms), .error .indexError)
            | some mc0 =>
              match mc0.get? 0 with
              | none => ((qs', ms), .error .indexError)
              | some m00 =>
                ((qs', ms.set 0 (pyInsert mc0 circ_num m00)), .ok ())
      else ((qs, ms), .ok ())
  else ((qs, ms), .ok ())

/-- Lines 172–184 of `load_qobj_from_cache`: the parameter-rewrite loop over
one experiment's instructions. `snapshot` instructions are skipped outright.
For the rest, `mappings[chunk][circ_num][gate_num]` (passed pre-resolved up to
the last subscript as `mOpt`) yields the source index; a failed subscript is an
`IndexError`. The arity/name re-check raises the `AquaError` gate mismatch;
otherwise the instruction's `params` are overwritten in place. The returned
list is the instruction list after the loop, also when it ends in an error
(the earlier instructions keep their freshly patched parameters). -/
def patchGates (raw : List Gate) (mOpt : Option (List Nat)) :
    Nat → List QobjInstruction → List QobjInstruction × Except CacheError Unit
  | _, [] => ([], .ok ())
  | gate_num, inst :: rest =>
    if inst.name = "snapshot" then
      let (rest', r) := patchGates raw mOpt (gate_num + 1) rest
      (inst :: rest', r)
    else
      match mOpt with
      | none => (inst :: rest, .error .indexError)
      | some mapping =>
        match mapping.get? gate_num with
        | none => (inst :: rest, .error .indexError)
        | some cache_index =>
          match raw.get? cache_index with
          | none => (inst :: rest, .error .indexError)
          | some g =>
            if (inst.params.getD []).length = g.param.length ∧ inst.name = g.name then
              let (rest', r) := patchGates raw mOpt (gate_num + 1) rest
              ({ inst with params := some (npFloatList g.param) } :: rest', r)
            else (inst :: rest, .error (.aquaError cache_index gate_num))

/-- The loop of `load_qobj_from_cache` over `enumerate(circuits)` (lines
158–184): per circuit, possibly extend chunk 0's experiments, set the
experiment header name to the circuit name, and patch the parameters of its
instructions in place. On an error the state mutated so far is returned with
it. -/
def loadLoop (try_reusing : Bool) (chunk : Nat) :
    List (Nat × Circuit) → List Qobj → AllMappings →
    (List Qobj × AllMappings) × Except CacheError Unit
  | [], qs, ms => ((qs, ms), .ok ())
  | (circ_num, c) :: rest, qs, ms =>
    match reuseExperimentStep try_reusing chunk circ_num qs ms with
    | (st, .error e) => (st, .error e)
    | ((qs1, ms1), .ok ()) =>
      match qs1.get? chunk with
      | none => ((qs1, ms1), .error .indexError)
      | some qc =>
        match qc.experiments.get? circ_num with
        | none => ((qs1, ms1), .error .indexError)
        | some exp =>
          let raw := rawGates c.data
          let mOpt := (ms1.get? chunk).bind (fun mc => mc.get? circ_num)
          let exp1 := { exp with header := { exp.header with name := c.name } }
          let (insts', r) := patchGates raw mOpt 0 exp1.instructions
          let qs2 := qs1.set chunk { qc with experiments :=
            (qc.experiments.set circ_num { exp1 with instructions := insts' }) }
          match r with
          | .error e => ((qs2, ms1), .error e)
          | .ok () => loadLoop try_reusing chunk rest qs2 ms1

/-- `load_qobj_from_cache(circuits, chunk)` (lines 147–188): attempt the file
load, duplicate chunk 0 when `chunk` is beyond the cached chunks, patch each
circuit's parameters into the cached template *in place*, and finally return a
qobj built from the template's first `len(circuits)` experiments — a shallow
alias of them in naughty mode, a deep copy отherwise; the two coincide on
values, so the two branches of line 186/187 produce the same value here. A
`None` `qobjs` global fails on its first subscript before any mutation,
modelled by the early `noneError` return. When the `mappings` global is `None`
every subscript of it fails just as every subscript of the empty list does, so
it is defaulted to `[]`. -/
def load_qobj_from_cache (fs : Except CacheError CacheFileContent)
    (s : CacheState) (circuits : List Circuit) (chunk : Nat) :
    CacheState × Except CacheError Qobj :=
  match try_loading_cache_from_file fs s with
  | (s1, .error e) => (s1, .error e)
  | (s1, .ok ()) =>
    match reuseChunkStep s1 chunk with
    | (s2, .error e) => (s2, .error e)
    | (s2, .ok ()) =>
      match s2.qobjs with
      | none => (s2, .error .noneError)
      | some qs =>
        let ms := s2.mappings.getD []
        match loadLoop s2.try_reusing_qobjs chunk circuits.enum qs ms with
        | ((qs', ms'), .error e) =>
            ({ s2 with qobjs := some qs', mappings := some ms' }, .error e)
        | ((qs', ms'), .ok ()) =>
          let s3 := { s2 with qobjs := some qs', mappings := some ms' }
          match qs'.get? chunk with
          | none => (s3, .error .indexError)
          | some qc =>
            let exec_qobj : Qobj :=
              if s3.naughty_mode = true then
                { qc with experiments := qc.experiments.take circuits.length }
              else
                { qc with experiments := qc.experiments.take circuits.length }
            (s3, .ok exec_qobj)

/-- Modelled from the spec: the system-level load path around
`try_loading_cache_from_file` lives in the run layer (`algomethods.py` /
`run_circuits.py`), which is not part of the sources here; per §7 of the spec
and the module docstring ("In the event of an error, the system will fail
gracefully, compile from scratch, and cache the new compiled qobj"), it
catches a persistence failure and falls back to an empty in-memory cache
instead of propagating it. -/
def system_load_with_fallback (fs : Except CacheError CacheFileContent)
    (s : CacheState) : CacheState :=
  match try_loading_cache_from_file fs s with
  | (s', .ok _) => s'
  | (_, .error _) => { s with qobjs := none, mappings := none }

deriving instance DecidableEq for Except

/-! ## Specification-side helper functions

Executable functions used to *state* properties of the matcher: the list of
source indices carrying a signature, occurrence counts, and the
characterization of the `op_graph` queues during the matching loop. -/

/-- The indices (counted from `i`) of the gates of `raw` whose structural
signature is `s`, in order. -/
def sigIndicesFrom (c : Circuit) (raw : List Gate) (i : Nat) (s : Sig) : List Nat :=
  ((List.enumFrom i raw).filter (fun p => gateSig c p.2 = s)).map (fun p => p.1)

/-- The source-operation indices of `raw` carrying signature `s`, in order. -/
def sigIndices (c : Circuit) (raw : List Gate) (s : Sig) : List Nat :=
  sigIndicesFrom c raw 0 s

/-- How many instructions of `insts` carry the signature `s`. -/
def countSig (insts : List QobjInstruction) (s : Sig) : Nat :=
  (insts.filter (fun inst => instSig inst = s)).length

/-- Extension of an optional queue by a further index list, mirroring
`op_graph.get(k, []) + [i]` iterated: `none` stays `none` only when nothing is
added. -/
def opExtend : Option (List Nat) → List Nat → Option (List Nat)
  | some v, w => some (v ++ w)
  | none, w => if w = [] then none else some w

/-- The intended queue contents of the `op_graph` after the instructions
`done` have been matched: the signature's source indices with the first
`countSig done s` of them consumed (`none` when the signature never occurs in
the source). -/
def ogSpec (c : Circuit) (raw : List Gate) (done : List QobjInstruction) (s : Sig) :
    Option (List Nat) :=
  if sigIndices c raw s = [] then none
  else some ((sigIndices c raw s).drop (countSig done s))

/-- The number of gates of `raw` that carry at least one parameter — the
"parameterized source operations" of the specification. -/
def countParameterized (raw : List Gate) : Nat :=
  (raw.filter (fun g => g.param ≠ [])).length

/-! ## Concrete instances used by the scenario theorems -/

/-- A two-qubit quantum register `q`. -/
def qreg2 : Reg := ⟨"q", 2, true⟩

/-- Scenario operation `OpA(q0)`, with one parameter. -/
def opA : Gate := ⟨"opa", [(qreg2, 0)], [1]⟩

/-- Scenario operation `OpB(q0,q1)`, with one parameter. -/
def opB : Gate := ⟨"opb", [(qreg2, 0), (qreg2, 1)], [2]⟩

/-- Compiled form of `OpA(q0)`. -/
def instA : QobjInstruction := ⟨"opa", [0], some [1]⟩

/-- Compiled form of `OpB(q0,q1)`. -/
def instB : QobjInstruction := ⟨"opb", [0, 1], some [2]⟩

/-- Scenario 1 program `[OpA(q0), OpB(q0,q1), OpA(q0)]`. -/
def sc1Circuit : Circuit := ⟨"c1", [qreg2], [.gate opA, .gate opB, .gate opA]⟩

/-- Scenario 1 compiled qobj (order preserved). -/
def sc1Qobj : Qobj := ⟨[⟨⟨"c1", some "OPENQASM"⟩, [instA, instB, instA]⟩]⟩

/-- Scenario 2 program `[OpA(q0), OpA(q0)]`. -/
def sc2Circuit : Circuit := ⟨"c2", [qreg2], [.gate opA, .gate opA]⟩

/-- Scenario 2 compiled qobj with one `OpA` missing. -/
def sc2Qobj : Qobj := ⟨[⟨⟨"c2", some "OPENQASM"⟩, [instA]⟩]⟩

/-- A program containing only `OpB(q0,q1)` — its compiled counterpart below
carries a signature (`opa` on qubit 0) absent from the source. -/
def sc7Circuit : Circuit := ⟨"c7", [qreg2], [.gate opB]⟩

/-- Compiled qobj whose single instruction's signature is absent from
`sc7Circuit`. -/
def sc7Qobj : Qobj := ⟨[⟨⟨"c7", none⟩, [instA]⟩]⟩

/-- A parameterless gate (`h` on qubit 0). -/
def hGate : Gate := ⟨"h", [(qreg2, 0)], []⟩

/-- A program consisting of one parameterless operation. -/
def sc4Circuit : Circuit := ⟨"c4", [qreg2], [.gate hGate]⟩

/-- Compiled qobj of `sc4Circuit`; the compiled `h` has no `params`
attribute. -/
def sc4Qobj : Qobj := ⟨[⟨⟨"c4", none⟩, [⟨"h", [0], none⟩]⟩]⟩

/-- A cached template instruction `u1(q0)` with parameter `1`. -/
def u1Tmpl : QobjInstruction := ⟨"u1", [0], some [1]⟩

/-- A one-experiment cached template qobj holding `u1Tmpl`. -/
def tmplQobj : Qobj := ⟨[⟨⟨"old", none⟩, [u1Tmpl]⟩]⟩

/-- The source gate `u1(q0)` with the fresh parameter `7`. -/
def u1Gate : Gate := ⟨"u1", [(qreg2, 0)], [7]⟩

/-- A one-operation program to patch against the cached template. -/
def patchCircuit : Circuit := ⟨"cu", [qreg2], [.gate u1Gate]⟩

/-- A file-system stub that is never consulted in runs whose state already has
a cache in memory. -/
def fsEmpty : Except CacheError CacheFileContent := .ok ⟨[], []⟩

/-- A state caching `tmplQobj` at chunk 0 with mapping `[0]`, in safe mode. -/
def c1State : CacheState :=
  { initialCacheState with qobjs := some [tmplQobj], mappings := some [[[0]]] }

/-- First template instruction of the arity-mismatch scenario (one
parameter). -/
def c8Inst0 : QobjInstruction := ⟨"u1", [0], some [5]⟩

/-- Second template instruction of the arity-mismatch scenario (one
parameter). -/
def c8Inst1 : QobjInstruction := ⟨"u1", [0], some [7]⟩

/-- A state caching a two-instruction experiment with mapping `[0, 1]`. -/
def c8State : CacheState :=
  { initialCacheState with
    qobjs := some [⟨[⟨⟨"old", none⟩, [c8Inst0, c8Inst1]⟩]⟩],
    mappings := some [[[0, 1]]] }

/-- Source gate 0 of the arity-mismatch scenario: one parameter, patches
fine. -/
def c8Gate0 : Gate := ⟨"u1", [(qreg2, 0)], [9]⟩

/-- Source gate 1 of the arity-mismatch scenario: *two* parameters against the
template's one. -/
def c8Gate1 : Gate := ⟨"u1", [(qreg2, 0)], [1, 2]⟩

/-- The program whose second operation has a parameter count differing from
its mapped compiled instruction. -/
def c8Circuit : Circuit := ⟨"c8", [qreg2], [.gate c8Gate0, .gate c8Gate1]⟩

/-- A `snapshot` instruction carrying a parameter list. -/
def snapInst : QobjInstruction := ⟨"snapshot", [0], some [5]⟩

/-- A safe-mode state whose template holds a patchable `u1` followed by a
`snapshot`; the mapping has an entry only for the `u1`. -/
def c10State : CacheState :=
  { initialCacheState with
    qobjs := some [⟨[⟨⟨"old", none⟩, [u1Tmpl, snapInst]⟩]⟩],
    mappings := some [[[0]]] }

/-- The same state in fast (naughty) mode. -/
def c10StateFast : CacheState := { c10State with naughty_mode := true }

/-- Scenario 3 state: chunk 0 caches two program slots. -/
def s3State : CacheState :=
  { initialCacheState with
    qobjs := some [⟨[⟨⟨"e0", none⟩, [u1Tmpl]⟩, ⟨⟨"e1", none⟩, [u1Tmpl]⟩]⟩],
    mappings := some [[[0], [0]]] }

/-- A state with a configured cache file and nothing yet in memory. -/
def c9State : CacheState := { initialCacheState with cache_file := some "cache.pkl" }

/-- A file system on which the configured cache file is missing or corrupt. -/
def fsFail : Except CacheError CacheFileContent := .error (.loadError "corrupt blob")

/-- The instruction list of experiment `j` of a qobj (`[]` when the experiment
is absent); used to state decidable hypotheses about concrete qobjs. -/
def instsAt (qobj : Qobj) (j : Nat) : List QobjInstruction :=
  ((qobj.experiments.get? j).map (fun e => e.instructions)).getD []

/-! ## Infrastructure lemmas: `pyInsert`, `alGet`/`alSet`, `totalSize` -/

theorem pyInsert_length (l : List α) (i : Nat) (a : α) :
    (pyInsert l i a).length = l.length + 1 := by
  simp [pyInsert]
  omega

theorem pyInsert_of_length_le (l : List α) (i : Nat) (a : α) (h : l.length ≤ i) :
    pyInsert l i a = l ++ [a] := by
  simp [pyInsert, List.take_of_length_le h, List.drop_of_length_le h]

theorem pyInsert_at_length (l : List α) (a : α) :
    pyInsert l l.length a = l ++ [a] :=
  pyInsert_of_length_le l l.length a le_rfl

theorem pyInsert_get?_lt (l : List α) (i : Nat) (a : α) (j : Nat)
    (hj : j < i) (hl : j < l.length) :
    (pyInsert l i a).get? j = l.get? j := by
  have hlen : j < (l.take i).length := by simp; omega
  rw [pyInsert, List.get?_append hlen, List.get?_take hj]

theorem pyInsert_get?_self (l : List α) (i : Nat) (a : α) (h : i ≤ l.length) :
    (pyInsert l i a).get? i = some a := by
  have hlen : (l.take i).length = i := by simp; omega
  rw [pyInsert, List.get?_append_right (by omega), hlen]
  simp

theorem pyInsert_get?_succ (l : List α) (i : Nat) (a : α) (j : Nat)
    (hi : i ≤ l.length) (hj : i ≤ j) :
    (pyInsert l i a).get? (j + 1) = l.get? j := by
  have hlen : (l.take i).length = i := by simp; omega
  rw [pyInsert, List.get?_append_right (by omega), hlen]
  have : j + 1 - i = (j - i) + 1 := by omega
  rw [this]
  simp [List.get?_drop]
  congr 1
  omega

theorem alGet_alSet_self (m : List (Sig × List Nat)) (k : Sig) (v : List Nat) :
    alGet (alSet m k v) k = some v := by
  induction m with
  | nil => simp [alSet, alGet]
  | cons kv rest ih =>
    by_cases h : kv.1 = k
    · simp [alSet, h, alGet]
    · simp [alSet, h, alGet, ih]

theorem alGet_alSet_ne (m : List (Sig × List Nat)) (k k' : Sig) (v : List Nat)
    (h : k' ≠ k) : alGet (alSet m k v) k' = alGet m k' := by
  induction m with
  | nil => simp [alSet, alGet, Ne.symm h]
  | cons kv rest ih =>
    by_cases hk : kv.1 = k
    · subst hk
      simp [alSet, alGet, Ne.symm h]
    · simp only [alSet, if_neg hk, alGet]
      split
      · rfl
      · exact ih

theorem totalSize_alSet_some (m : List (Sig × List Nat)) (k : Sig)
    (v w : List Nat) (h : alGet m k = some v) :
    totalSize (alSet m k w) + v.length = totalSize m + w.length := by
  induction m with
  | nil => simp [alGet] at h
  | cons kv rest ih =>
    by_cases hk : kv.1 = k
    · rw [alGet, if_pos hk] at h
      cases h
      simp only [alSet, if_pos hk, totalSize, List.map_cons, List.sum_cons]
      omega
    · rw [alGet, if_neg hk] at h
      have := ih h
      simp [alSet, hk, totalSize] at this ⊢
      omega

theorem totalSize_alSet_none (m : List (Sig × List Nat)) (k : Sig)
    (w : List Nat) (h : alGet m k = none) :
    totalSize (alSet m k w) = totalSize m + w.length := by
  induction m with
  | nil => simp [alSet, totalSize]
  | cons kv rest ih =>
    by_cases hk : kv.1 = k
    · rw [alGet, if_pos hk] at h
      simp at h
    · rw [alGet, if_neg hk] at h
      have := ih h
      simp [alSet, hk, totalSize] at this ⊢
      omega

theorem find?_pos_none_iff (m : List (Sig × List Nat)) :
    m.find? (fun kv => 0 < kv.2.length) = none ↔ totalSize m = 0 := by
  induction m with
  | nil => simp [totalSize]
  | cons kv rest ih =>
    by_cases h : 0 < kv.2.length
    · rw [List.find?_cons_of_pos _ (by simpa using h)]
      simp only [totalSize, List.map_cons, List.sum_cons]
      constructor
      · intro hc
        exact absurd hc (by simp)
      · intro hc
        omega
    · rw [List.find?_cons_of_neg _ (by simpa using h)]
      simp only [totalSize, List.map_cons, List.sum_cons] at ih ⊢
      rw [ih]
      omega

/-! ## Characterization of `buildOpGraph` -/

theorem sigIndicesFrom_nil (c : Circuit) (i : Nat) (s : Sig) :
    sigIndicesFrom c [] i s = [] := rfl

theorem sigIndicesFrom_cons (c : Circuit) (g : Gate) (rest : List Gate)
    (i : Nat) (s : Sig) :
    sigIndicesFrom c (g :: rest) i s =
      (if gateSig c g = s then [i] else []) ++ sigIndicesFrom c rest (i + 1) s := by
  by_cases h : gateSig c g = s
  · simp [sigIndicesFrom, List.enumFrom, h]
  · simp [sigIndicesFrom, List.enumFrom, h]

theorem sigIndicesFrom_mem (c : Circuit) (raw : List Gate) (i : Nat) (s : Sig)
    (idx : Nat) (h : idx ∈ sigIndicesFrom c raw i s) :
    i ≤ idx ∧ ∃ g, raw.get? (idx - i) = some g ∧ gateSig c g = s := by
  induction raw generalizing i with
  | nil => simp [sigIndicesFrom_nil] at h
  | cons g rest ih =>
    rw [sigIndicesFrom_cons] at h
    rcases List.mem_append.mp h with h1 | h2
    · by_cases hg : gateSig c g = s
      · rw [if_pos hg] at h1
        simp at h1
        subst h1
        exact ⟨le_rfl, g, by simp, hg⟩
      · rw [if_neg hg] at h1
        simp at h1
    · obtain ⟨hle, g', hg', hs'⟩ := ih (i + 1) h2
      refine ⟨by omega, g', ?_, hs'⟩
      have : idx - i = (idx - (i + 1)) + 1 := by omega
      rw [this]
      simpa using hg'

theorem sigIndicesFrom_pairwise (c : Circuit) (raw : List Gate) (i : Nat) (s : Sig) :
    (sigIndicesFrom c raw i s).Pairwise (· < ·) := by
  induction raw generalizing i with
  | nil => simp [sigIndicesFrom_nil]
  | cons g rest ih =>
    rw [sigIndicesFrom_cons]
    by_cases hg : gateSig c g = s
    · rw [if_pos hg]
      simp only [List.singleton_append, List.pairwise_cons]
      refine ⟨fun b hb => ?_, ih (i + 1)⟩
      have := (sigIndicesFrom_mem c rest (i + 1) s b hb).1
      omega
    · rw [if_neg hg]
      simpa using ih (i + 1)

theorem buildOpGraphAux_char (c : Circuit) (raw : List Gate) :
    ∀ (i : Nat) (og : List (Sig × List Nat)) (s : Sig),
    alGet (buildOpGraphAux c raw i og) s =
      opExtend (alGet og s) (sigIndicesFrom c raw i s) := by
  induction raw with
  | nil =>
    intro i og s
    simp [buildOpGraphAux, sigIndicesFrom_nil, opExtend]
    cases alGet og s <;> simp [opExtend]
  | cons g rest ih =>
    intro i og s
    rw [buildOpGraphAux, ih, sigIndicesFrom_cons]
    by_cases hs : gateSig c g = s
    · rw [if_pos hs, hs, alGet_alSet_self]
      cases hog : alGet og s <;> simp [opExtend]
    · rw [if_neg hs, alGet_alSet_ne _ _ _ _ (fun hh => hs hh.symm)]
      simp

theorem buildOpGraph_char (c : Circuit) (raw : List Gate) (s : Sig) :
    alGet (buildOpGraph c raw) s = ogSpec c raw [] s := by
  rw [buildOpGraph, buildOpGraphAux_char]
  simp only [alGet, opExtend, ogSpec, countSig, List.filter_nil, List.length_nil,
    List.drop_zero, sigIndices]

theorem buildOpGraphAux_totalSize (c : Circuit) (raw : List Gate) :
    ∀ (i : Nat) (og : List (Sig × List Nat)),
    totalSize (buildOpGraphAux c raw i og) = totalSize og + raw.length := by
  induction raw with
  | nil => intro i og; simp [buildOpGraphAux]
  | cons g rest ih =>
    intro i og
    rw [buildOpGraphAux, ih]
    cases hog : alGet og (gateSig c g) with
    | none =>
      rw [totalSize_alSet_none _ _ _ hog]
      simp
      omega
    | some v =>
      have h2 := totalSize_alSet_some og (gateSig c g) v (v ++ [i]) hog
      simp only [Option.getD_some, List.length_cons]
      simp only [List.length_append, List.length_singleton] at h2
      omega

theorem buildOpGraph_totalSize (c : Circuit) (raw : List Gate) :
    totalSize (buildOpGraph c raw) = raw.length := by
  rw [buildOpGraph, buildOpGraphAux_totalSize]
  simp [totalSize]

/-! ## The matching-loop invariant -/

theorem countSig_append (a b : List QobjInstruction) (s : Sig) :
    countSig (a ++ b) s = countSig a s + countSig b s := by
  simp [countSig, List.filter_append]

theorem countSig_snoc (a : List QobjInstruction) (inst : QobjInstruction) (s : Sig) :
    countSig (a ++ [inst]) s =
      countSig a s + (if instSig inst = s then 1 else 0) := by
  rw [countSig_append]
  by_cases h : instSig inst = s
  · simp [countSig, h]
  · simp [countSig, h]

theorem drop_cons_facts (l : List Nat) (n : Nat) (x : Nat) (tl : List Nat)
    (h : l.drop n = x :: tl) :
    l.get? n = some x ∧ l.drop (n + 1) = tl := by
  constructor
  · have h0 : (l.drop n).get? 0 = l.get? (n + 0) := List.get?_drop l n 0
    rw [h] at h0
    simpa using h0.symm
  · have h2 : (l.drop n).drop 1 = l.drop (n + 1) := List.drop_drop 1 n l
    rw [h] at h2
    simpa using h2.symm

theorem matchLoop_ok_char (c : Circuit) (raw : List Gate) :
    ∀ (todo done : List QobjInstruction) (og : List (Sig × List Nat))
      (mapping : List Nat) (og' : List (Sig × List Nat)) (m' : List Nat),
    (∀ s, alGet og s = ogSpec c raw done s) →
    matchLoop c raw todo mapping.length og mapping = .ok (og', m') →
    (∀ s, alGet og' s = ogSpec c raw (done ++ todo) s) ∧
    ∃ rest, m' = mapping ++ rest ∧ rest.length = todo.length ∧
      ∀ j (hj : j < todo.length),
        countSig (done ++ todo.take j) (instSig (todo.get ⟨j, hj⟩)) <
          (sigIndices c raw (instSig (todo.get ⟨j, hj⟩))).length ∧
        rest.get? j = (sigIndices c raw (instSig (todo.get ⟨j, hj⟩))).get?
          (countSig (done ++ todo.take j) (instSig (todo.get ⟨j, hj⟩))) := by
  intro todo
  induction todo with
  | nil =>
    intro done og mapping og' m' hchar hrun
    simp only [matchLoop, Except.ok.injEq, Prod.mk.injEq] at hrun
    obtain ⟨h1, h2⟩ := hrun
    subst h1; subst h2
    refine ⟨by simpa using hchar, [], by simp, by simp, ?_⟩
    intro j hj
    exact absurd hj (by simp)
  | cons inst rest0 ih =>
    intro done og mapping og' m' hchar hrun
    simp only [matchLoop] at hrun
    have hkey : ((inst.name, inst.qubits) : Sig) = instSig inst := rfl
    rw [hkey, hchar (instSig inst)] at hrun
    by_cases hempty : sigIndices c raw (instSig inst) = []
    · rw [ogSpec, if_pos hempty] at hrun
      simp at hrun
    · rw [ogSpec, if_neg hempty] at hrun
      cases hdrop : (sigIndices c raw (instSig inst)).drop (countSig done (instSig inst)) with
      | nil =>
        rw [hdrop] at hrun
        simp at hrun
      | cons idx tl =>
        rw [hdrop] at hrun
        obtain ⟨hget, hdrop1⟩ := drop_cons_facts _ _ _ _ hdrop
        have hmem : idx ∈ sigIndices c raw (instSig inst) := List.get?_mem hget
        obtain ⟨-, g, hg0, hsig⟩ := sigIndicesFrom_mem c raw 0 _ idx hmem
        have hg : raw.get? idx = some g := by simpa using hg0
        simp only [hg] at hrun
        have hcond : inst.name = g.name ∧ inst.qubits = gateQubits c g := by
          have h1 : gateSig c g = instSig inst := hsig
          rw [gateSig, instSig] at h1
          exact ⟨(Prod.mk.injEq _ _ _ _ ▸ h1).1.symm, (Prod.mk.injEq _ _ _ _ ▸ h1).2.symm⟩
        rw [if_pos hcond, pyInsert_at_length] at hrun
        have hcnt : countSig done (instSig inst) < (sigIndices c raw (instSig inst)).length := by
          obtain ⟨hlt, -⟩ := List.get?_eq_some.mp hget
          exact hlt
        have hchar' : ∀ s, alGet (alSet og (instSig inst) tl) s =
            ogSpec c raw (done ++ [inst]) s := by
          intro s
          by_cases hs : s = instSig inst
          · subst hs
            rw [alGet_alSet_self, ogSpec, if_neg hempty, countSig_snoc, if_pos rfl, ← hdrop1]
          · rw [alGet_alSet_ne _ _ _ _ hs, hchar s, ogSpec, ogSpec, countSig_snoc,
              if_neg (show ¬instSig inst = s from fun hh => hs hh.symm)]
            simp
        have hlen : mapping.length + 1 = (mapping ++ [idx]).length := by simp
        rw [hlen] at hrun
        obtain ⟨hcharF, rest1, hm', hlen1, hfifo⟩ :=
          ih (done ++ [inst]) _ (mapping ++ [idx]) og' m' hchar' hrun
        constructor
        · intro s
          rw [hcharF s]
          simp
        · refine ⟨idx :: rest1, by simp [hm'], by simp [hlen1], ?_⟩
          intro j hj
          cases j with
          | zero =>
            refine ⟨by simpa using hcnt, ?_⟩
            simpa using hget.symm
          | succ j' =>
            have hj' : j' < rest0.length := by simpa using hj
            have hstep := hfifo j' hj'
            have hgeteq : (inst :: rest0).get ⟨j' + 1, hj⟩ = rest0.get ⟨j', hj'⟩ := rfl
            have htake : (inst :: rest0).take (j' + 1) = inst :: rest0.take j' := rfl
            rw [hgeteq, htake]
            have happ : done ++ inst :: rest0.take j' = (done ++ [inst]) ++ rest0.take j' := by
              simp
            rw [happ]
            exact ⟨hstep.1, hstep.2⟩

theorem sig_pair_eq (c : Circuit) (g : Gate) (inst : QobjInstruction)
    (h : gateSig c g = instSig inst) :
    inst.name = g.name ∧ inst.qubits = gateQubits c g := by
  rw [gateSig, instSig] at h
  exact ⟨(Prod.mk.injEq _ _ _ _ ▸ h).1.symm, (Prod.mk.injEq _ _ _ _ ▸ h).2.symm⟩

theorem ogSpec_after_pop (c : Circuit) (raw : List Gate)
    (done : List QobjInstruction) (og : List (Sig × List Nat))
    (inst : QobjInstruction) (tl : List Nat)
    (hchar : ∀ s, alGet og s = ogSpec c raw done s)
    (hempty : ¬sigIndices c raw (instSig inst) = [])
    (hdrop1 : (sigIndices c raw (instSig inst)).drop
      (countSig done (instSig inst) + 1) = tl) :
    ∀ s, alGet (alSet og (instSig inst) tl) s = ogSpec c raw (done ++ [inst]) s := by
  intro s
  by_cases hs : s = instSig inst
  · subst hs
    rw [alGet_alSet_self, ogSpec, if_neg hempty, countSig_snoc, if_pos rfl, ← hdrop1]
  · rw [alGet_alSet_ne _ _ _ _ hs, hchar s, ogSpec, ogSpec, countSig_snoc,
      if_neg (show ¬instSig inst = s from fun hh => hs hh.symm)]
    simp

theorem matchLoop_dom_ok (c : Circuit) (raw : List Gate) :
    ∀ (todo done : List QobjInstruction) (og : List (Sig × List Nat))
      (mapping : List Nat),
    (∀ s, alGet og s = ogSpec c raw done s) →
    (∀ s, countSig (done ++ todo) s ≤ (sigIndices c raw s).length) →
    ∃ og' m', matchLoop c raw todo mapping.length og mapping = .ok (og', m') := by
  intro todo
  induction todo with
  | nil =>
    intro done og mapping hchar hdom
    exact ⟨og, mapping, rfl⟩
  | cons inst rest0 ih =>
    intro done og mapping hchar hdom
    have hcount : countSig done (instSig inst) + 1 ≤
        countSig (done ++ inst :: rest0) (instSig inst) := by
      rw [countSig_append]
      have h1 : 1 ≤ countSig (inst :: rest0) (instSig inst) := by
        simp [countSig, List.filter_cons]
      omega
    have hlt : countSig done (instSig inst) <
        (sigIndices c raw (instSig inst)).length := by
      have := hdom (instSig inst)
      omega
    have hempty : ¬sigIndices c raw (instSig inst) = [] := by
      intro hh
      rw [hh] at hlt
      simp at hlt
    obtain ⟨idx, tl, hdrop⟩ : ∃ idx tl,
        (sigIndices c raw (instSig inst)).drop (countSig done (instSig inst)) =
          idx :: tl := by
      cases hh : (sigIndices c raw (instSig inst)).drop
          (countSig done (instSig inst)) with
      | nil =>
        rw [List.drop_eq_nil_iff_le] at hh
        omega
      | cons a b => exact ⟨a, b, rfl⟩
    obtain ⟨hget, hdrop1⟩ := drop_cons_facts _ _ _ _ hdrop
    have hmem : idx ∈ sigIndices c raw (instSig inst) := List.get?_mem hget
    obtain ⟨-, g, hg0, hsig⟩ := sigIndicesFrom_mem c raw 0 _ idx hmem
    have hg : raw.get? idx = some g := by simpa using hg0
    have hcond := sig_pair_eq c g inst hsig
    have hchar' := ogSpec_after_pop c raw done og inst tl hchar hempty hdrop1
    have hstep : matchLoop c raw (inst :: rest0) mapping.length og mapping =
        matchLoop c raw rest0 (mapping.length + 1)
          (alSet og (instSig inst) tl) (mapping ++ [idx]) := by
      simp only [matchLoop]
      rw [show ((inst.name, inst.qubits) : Sig) = instSig inst from rfl,
        hchar (instSig inst), ogSpec, if_neg hempty, hdrop]
      simp only [hg]
      rw [if_pos hcond, pyInsert_at_length]
    rw [hstep]
    have hlen : mapping.length + 1 = (mapping ++ [idx]).length := by simp
    rw [hlen]
    apply ih (done ++ [inst]) _ (mapping ++ [idx]) hchar'
    intro s
    have := hdom s
    rw [List.append_assoc]
    simpa using this

theorem matchLoop_totalSize (c : Circuit) (raw : List Gate) :
    ∀ (todo : List QobjInstruction) (i : Nat)
      (og og' : List (Sig × List Nat)) (mapping m' : List Nat),
    matchLoop c raw todo i og mapping = .ok (og', m') →
    totalSize og = totalSize og' + todo.length := by
  intro todo
  induction todo with
  | nil =>
    intro i og og' mapping m' h
    simp only [matchLoop, Except.ok.injEq, Prod.mk.injEq] at h
    rw [h.1]
    simp
  | cons inst rest0 ih =>
    intro i og og' mapping m' h
    simp only [matchLoop] at h
    cases hog : alGet og (inst.name, inst.qubits) with
    | none =>
      simp only [hog] at h
      simp at h
    | some ops =>
      simp only [hog] at h
      cases ops with
      | nil => simp at h
      | cons idx tl =>
        cases hg : raw.get? idx with
        | none =>
          simp only [hg] at h
          simp at h
        | some g =>
          simp only [hg] at h
          have hrec := ih (i + 1) _ og' _ m' h
          have hts := totalSize_alSet_some og (inst.name, inst.qubits) (idx :: tl) tl hog
          simp only [List.length_cons] at hts ⊢
          omega

/-! ## Corollaries about `matchCircuit` -/

theorem matchCircuit_ok_elim (c : Circuit) (insts : List QobjInstruction)
    (m : List Nat) (h : matchCircuit c insts = .ok m) :
    ∃ og', matchLoop c (rawGates c.data) insts 0
        (buildOpGraph c (rawGates c.data)) [] = .ok (og', m) ∧
      og'.find? (fun kv => 0 < kv.2.length) = none := by
  simp only [matchCircuit] at h
  cases hrun : matchLoop c (rawGates c.data) insts 0
      (buildOpGraph c (rawGates c.data)) [] with
  | error e =>
    simp only [hrun] at h
    simp at h
  | ok pair =>
    obtain ⟨og', mapping⟩ := pair
    simp only [hrun] at h
    cases hf : og'.find? (fun kv => 0 < kv.2.length) with
    | some kv =>
      simp only [hf] at h
      simp at h
    | none =>
      simp only [hf] at h
      simp only [Except.ok.injEq] at h
      subst h
      exact ⟨og', rfl, hf⟩

theorem matchCircuit_fifo (c : Circuit) (insts : List QobjInstruction)
    (m : List Nat) (h : matchCircuit c insts = .ok m) :
    ∀ j (hj : j < insts.length),
      countSig (insts.take j) (instSig (insts.get ⟨j, hj⟩)) <
        (sigIndices c (rawGates c.data) (instSig (insts.get ⟨j, hj⟩))).length ∧
      m.get? j = (sigIndices c (rawGates c.data) (instSig (insts.get ⟨j, hj⟩))).get?
        (countSig (insts.take j) (instSig (insts.get ⟨j, hj⟩))) := by
  obtain ⟨og', hrun, -⟩ := matchCircuit_ok_elim c insts m h
  obtain ⟨-, rest, hm, -, hfifo⟩ :=
    matchLoop_ok_char c (rawGates c.data) insts [] (buildOpGraph c (rawGates c.data))
      [] og' m (buildOpGraph_char c (rawGates c.data)) hrun
  intro j hj
  have := hfifo j hj
  simp only [List.nil_append] at this
  rw [hm]
  simpa using this

theorem matchCircuit_lengths (c : Circuit) (insts : List QobjInstruction)
    (m : List Nat) (h : matchCircuit c insts = .ok m) :
    insts.length = (rawGates c.data).length ∧ m.length = insts.length := by
  obtain ⟨og', hrun, hfind⟩ := matchCircuit_ok_elim c insts m h
  have hts := matchLoop_totalSize c (rawGates c.data) insts 0 _ og' [] m hrun
  rw [buildOpGraph_totalSize] at hts
  have hzero := (find?_pos_none_iff og').mp hfind
  obtain ⟨-, rest, hm, hlen, -⟩ :=
    matchLoop_ok_char c (rawGates c.data) insts [] (buildOpGraph c (rawGates c.data))
      [] og' m (buildOpGraph_char c (rawGates c.data)) hrun
  constructor
  · omega
  · rw [hm]
    simpa using hlen

theorem countSig_take_mono (insts : List QobjInstruction) (s : Sig) (a b : Nat)
    (hab : a ≤ b) : countSig (insts.take a) s ≤ countSig (insts.take b) s := by
  have hb : b = a + (b - a) := by omega
  rw [hb, List.take_add, countSig_append]
  omega

theorem countSig_take_succ (insts : List QobjInstruction) (s : Sig) (i : Nat)
    (hi : i < insts.length) (hs : instSig (insts.get ⟨i, hi⟩) = s) :
    countSig (insts.take (i + 1)) s = countSig (insts.take i) s + 1 := by
  have hs' : instSig insts[i] = s := hs
  rw [List.take_succ, List.getElem?_eq_getElem hi]
  simp only [Option.toList_some]
  rw [countSig_snoc, if_pos hs']

theorem countSig_take_lt (insts : List QobjInstruction) (s : Sig) (i j : Nat)
    (hij : i < j) (hi : i < insts.length)
    (hs : instSig (insts.get ⟨i, hi⟩) = s) :
    countSig (insts.take i) s < countSig (insts.take j) s := by
  have h1 := countSig_take_succ insts s i hi hs
  have h2 := countSig_take_mono insts s (i + 1) j (by omega)
  omega

theorem pairwise_lt_get? (l : List Nat) (hp : l.Pairwise (· < ·)) (a b x y : Nat)
    (ha : l.get? a = some x) (hb : l.get? b = some y) (hab : a < b) : x < y := by
  obtain ⟨ha', hxa⟩ := List.get?_eq_some.mp ha
  obtain ⟨hb', hyb⟩ := List.get?_eq_some.mp hb
  have := (List.pairwise_iff_get.mp hp) ⟨a, ha'⟩ ⟨b, hb'⟩ (by simpa using hab)
  rw [hxa, hyb] at this
  exact this

theorem matchCircuit_mem_bound (c : Circuit) (insts : List QobjInstruction)
    (m : List Nat) (h : matchCircuit c insts = .ok m) :
    ∀ x ∈ m, x < (rawGates c.data).length := by
  intro x hx
  obtain ⟨j, hj⟩ := List.mem_iff_get?.mp hx
  have hjlen : j < m.length := (List.get?_eq_some.mp hj).1
  have hjlen' : j < insts.length := by
    rw [← (matchCircuit_lengths c insts m h).2]
    exact hjlen
  have hfifo := (matchCircuit_fifo c insts m h j hjlen').2
  rw [hj] at hfifo
  have hmem : x ∈ sigIndices c (rawGates c.data) (instSig (insts.get ⟨j, hjlen'⟩)) :=
    List.get?_mem hfifo.symm
  obtain ⟨-, g, hg, -⟩ := sigIndicesFrom_mem c (rawGates c.data) 0 _ x hmem
  have : (rawGates c.data).get? x = some g := by simpa using hg
  exact (List.get?_eq_some.mp this).1

theorem matchCircuit_nodup (c : Circuit) (insts : List QobjInstruction)
    (m : List Nat) (h : matchCircuit c insts = .ok m) : m.Nodup := by
  rw [List.Nodup, List.pairwise_iff_get]
  intro i j hij
  have hi : (i : Nat) < insts.length := by
    rw [← (matchCircuit_lengths c insts m h).2]; exact i.2
  have hj : (j : Nat) < insts.length := by
    rw [← (matchCircuit_lengths c insts m h).2]; exact j.2
  have hgi : m.get? (i : Nat) = some (m.get i) := List.get?_eq_get i.2
  have hgj : m.get? (j : Nat) = some (m.get j) := List.get?_eq_get j.2
  have hfi := matchCircuit_fifo c insts m h (i : Nat) hi
  have hfj := matchCircuit_fifo c insts m h (j : Nat) hj
  set si := instSig (insts.get ⟨(i : Nat), hi⟩) with hsi
  set sj := instSig (insts.get ⟨(j : Nat), hj⟩) with hsj
  intro heq
  have hxi : (sigIndices c (rawGates c.data) si).get?
      (countSig (insts.take (i : Nat)) si) = some (m.get i) := by
    rw [← hfi.2, hgi]
  have hxj : (sigIndices c (rawGates c.data) sj).get?
      (countSig (insts.take (j : Nat)) sj) = some (m.get j) := by
    rw [← hfj.2, hgj]
  by_cases hss : si = sj
  · rw [← hss] at hxj
    have hclt : countSig (insts.take (i : Nat)) si <
        countSig (insts.take (j : Nat)) si :=
      countSig_take_lt insts si (i : Nat) (j : Nat) (by simpa using hij) hi rfl
    have := pairwise_lt_get? _ (sigIndicesFrom_pairwise c (rawGates c.data) 0 si)
      _ _ _ _ hxi hxj hclt
    omega
  · have hmi : m.get i ∈ sigIndices c (rawGates c.data) si := List.get?_mem hxi
    have hmj : m.get j ∈ sigIndices c (rawGates c.data) sj := List.get?_mem hxj
    obtain ⟨-, gi, hggi, hsgi⟩ := sigIndicesFrom_mem c (rawGates c.data) 0 _ _ hmi
    obtain ⟨-, gj, hggj, hsgj⟩ := sigIndicesFrom_mem c (rawGates c.data) 0 _ _ hmj
    rw [heq] at hggi
    rw [hggi] at hggj
    cases hggj
    exact hss (hsgi ▸ hsgj ▸ rfl)

theorem matchCircuit_toFinset (c : Circuit) (insts : List QobjInstruction)
    (m : List Nat) (h : matchCircuit c insts = .ok m) :
    m.toFinset = Finset.range (rawGates c.data).length := by
  have hnodup := matchCircuit_nodup c insts m h
  have hbound := matchCircuit_mem_bound c insts m h
  have hlen := matchCircuit_lengths c insts m h
  have hsub : m.toFinset ⊆ Finset.range (rawGates c.data).length := by
    intro x hx
    exact Finset.mem_range.mpr (hbound x (List.mem_toFinset.mp hx))
  refine (Finset.eq_of_subset_of_card_le hsub ?_).symm ▸ rfl
  rw [List.toFinset_card_of_nodup hnodup, Finset.card_range]
  omega

theorem matchCircuit_sig_preserved (c : Circuit) (insts : List QobjInstruction)
    (m : List Nat) (h : matchCircuit c insts = .ok m) :
    ∀ j (hj : j < insts.length), ∃ x g,
      m.get? j = some x ∧ (rawGates c.data).get? x = some g ∧
      gateSig c g = instSig (insts.get ⟨j, hj⟩) := by
  intro j hj
  obtain ⟨hlt, hget⟩ := matchCircuit_fifo c insts m h j hj
  have hy : (sigIndices c (rawGates c.data) (instSig (insts.get ⟨j, hj⟩))).get?
      (countSig (insts.take j) (instSig (insts.get ⟨j, hj⟩))) =
      some ((sigIndices c (rawGates c.data) (instSig (insts.get ⟨j, hj⟩))).get
        ⟨_, hlt⟩) := List.get?_eq_get hlt
  rw [hy] at hget
  have hmem := List.get?_mem hy
  obtain ⟨-, g, hg, hsig⟩ := sigIndicesFrom_mem c (rawGates c.data) 0 _ _ hmem
  exact ⟨_, g, hget, by simpa using hg, hsig⟩

theorem dom_of_bounded (c : Circuit) (raw : List Gate) (insts : List QobjInstruction)
    (h : ∀ inst ∈ insts,
      countSig insts (instSig inst) ≤ (sigIndices c raw (instSig inst)).length) :
    ∀ s, countSig insts s ≤ (sigIndices c raw s).length := by
  intro s
  by_cases hs : ∃ inst ∈ insts, instSig inst = s
  · obtain ⟨inst, hmem, heq⟩ := hs
    subst heq
    exact h inst hmem
  · push_neg at hs
    have hzero : countSig insts s = 0 := by
      rw [countSig, List.length_eq_zero, List.filter_eq_nil]
      intro inst hmem
      simpa using hs inst hmem
    omega

theorem matchCircuit_dom_fail (c : Circuit) (insts : List QobjInstruction)
    (hdom : ∀ s, countSig insts s ≤ (sigIndices c (rawGates c.data) s).length)
    (hlt : insts.length < (rawGates c.data).length) :
    ∃ sig, matchCircuit c insts = .error (.extraInCircuit sig) := by
  obtain ⟨og', m', hrun⟩ :=
    matchLoop_dom_ok c (rawGates c.data) insts [] (buildOpGraph c (rawGates c.data))
      [] (buildOpGraph_char c (rawGates c.data)) (by simpa using hdom)
  have hts := matchLoop_totalSize c (rawGates c.data) insts 0 _ og' [] m' hrun
  rw [buildOpGraph_totalSize] at hts
  have hpos : totalSize og' ≠ 0 := by omega
  cases hf : og'.find? (fun kv => 0 < kv.2.length) with
  | none => exact absurd ((find?_pos_none_iff og').mp hf) hpos
  | some kv =>
    refine ⟨kv.1, ?_⟩
    simp only [List.length_nil] at hrun
    simp only [matchCircuit, hrun, hf]

/-- The two failure modes of one matching step (lines 110–121): a compiled
signature absent from the source program raises `KeyError`; one that is
present but whose queue is exhausted raises the structural-mismatch
exception. -/
theorem matchLoop_step_errors (c : Circuit) (raw : List Gate)
    (inst : QobjInstruction) (rest : List QobjInstruction) (i : Nat)
    (og : List (Sig × List Nat)) (mapping : List Nat) :
    (alGet og (instSig inst) = none →
      matchLoop c raw (inst :: rest) i og mapping =
        .error (.keyError (instSig inst))) ∧
    (alGet og (instSig inst) = some [] →
      matchLoop c raw (inst :: rest) i og mapping =
        .error (.extraInQobj (instSig inst))) := by
  constructor
  · intro h
    simp only [matchLoop]
    rw [show ((inst.name, inst.qubits) : Sig) = instSig inst from rfl, h]
  · intro h
    simp only [matchLoop]
    rw [show ((inst.name, inst.qubits) : Sig) = instSig inst from rfl, h]

/-! ## Store-level lemmas about `cacheCircuitLoop` and `cache_circuit` -/

theorem cacheCircuitLoop_lengths (qobj : Qobj) (chunk : Nat) :
    ∀ (l : List (Nat × Circuit)) (qs : List Qobj) (ms : AllMappings),
    (cacheCircuitLoop qobj chunk l qs ms).1.1.length = qs.length ∧
    (cacheCircuitLoop qobj chunk l qs ms).1.2.length = ms.length := by
  intro l
  induction l with
  | nil => intro qs ms; exact ⟨rfl, rfl⟩
  | cons p rest ih =>
    intro qs ms
    obtain ⟨circ_num, c⟩ := p
    simp only [cacheCircuitLoop]
    repeat' split
    all_goals refine ⟨?_, ?_⟩
    all_goals try simp [List.length_set]
    all_goals try (rw [(ih _ _).1]; simp)
    all_goals rw [(ih _ _).2]; simp

theorem cacheCircuitLoop_other (qobj : Qobj) (chunk : Nat) :
    ∀ (l : List (Nat × Circuit)) (qs : List Qobj) (ms : AllMappings) (i : Nat),
    i ≠ chunk →
    (cacheCircuitLoop qobj chunk l qs ms).1.1.get? i = qs.get? i ∧
    (cacheCircuitLoop qobj chunk l qs ms).1.2.get? i = ms.get? i := by
  intro l
  induction l with
  | nil => intro qs ms i h; exact ⟨rfl, rfl⟩
  | cons p rest ih =>
    intro qs ms i h
    obtain ⟨circ_num, c⟩ := p
    simp only [cacheCircuitLoop]
    repeat' split
    all_goals refine ⟨?_, ?_⟩
    all_goals try rfl
    all_goals try (rw [List.get?_set_ne _ _ (Ne.symm h)])
    all_goals try (rw [(ih _ _ i h).1, List.get?_set_ne _ _ (Ne.symm h)])
    all_goals rw [(ih _ _ i h).2, List.get?_set_ne _ _ (Ne.symm h)]

theorem cacheCircuitLoop_ms_untouched (qobj : Qobj) (chunk : Nat) :
    ∀ (l : List (Nat × Circuit)) (qs : List Qobj) (ms : AllMappings) (j : Nat),
    (∀ p ∈ l, p.1 ≠ j) →
    ((cacheCircuitLoop qobj chunk l qs ms).1.2.get? chunk).bind
        (fun mc => mc.get? j) =
      (ms.get? chunk).bind (fun mc => mc.get? j) := by
  intro l
  induction l with
  | nil => intro qs ms j hne; rfl
  | cons p rest ih =>
    intro qs ms j hne
    obtain ⟨circ_num, c⟩ := p
    have hcj : circ_num ≠ j := hne (circ_num, c) (List.mem_cons_self _ _)
    have hrest : ∀ p ∈ rest, p.1 ≠ j := fun p hp => hne p (List.mem_cons_of_mem _ hp)
    cases hqs : qs.get? chunk with
    | none => simp only [cacheCircuitLoop, hqs]
    | some qc =>
      cases hexp : qc.experiments.get? circ_num with
      | none => simp only [cacheCircuitLoop, hqs, hexp]
      | some exp =>
        cases horig : qobj.experiments.get? circ_num with
        | none => simp only [cacheCircuitLoop, hqs, hexp, horig]
        | some origExp =>
          cases hml : matchLoop c (rawGates c.data) origExp.instructions 0
              (buildOpGraph c (rawGates c.data)) [] with
          | error e => simp only [cacheCircuitLoop, hqs, hexp, horig, hml]
          | ok pair =>
            obtain ⟨og', mapping⟩ := pair
            cases hmc : ms.get? chunk with
            | none => simp only [cacheCircuitLoop, hqs, hexp, horig, hml, hmc]
            | some msChunk =>
              have hlt : chunk < ms.length := (List.get?_eq_some.mp hmc).1
              by_cases hcl : circ_num < msChunk.length
              · cases hfind : og'.find? (fun kv => 0 < kv.2.length) with
                | some kv =>
                  simp only [cacheCircuitLoop, hqs, hexp, horig, hml, hmc,
                    if_pos hcl, hfind]
                  rw [List.get?_set_eq_of_lt _ hlt]
                  simp [List.getElem?_set_ne hcj]
                | none =>
                  simp only [cacheCircuitLoop, hqs, hexp, horig, hml, hmc,
                    if_pos hcl, hfind]
                  rw [ih _ _ j hrest, List.get?_set_eq_of_lt _ hlt]
                  simp [List.getElem?_set_ne hcj]
              · simp only [cacheCircuitLoop, hqs, hexp, horig, hml, hmc, if_neg hcl]

theorem cacheCircuitLoop_ok_stored (qobj : Qobj) (chunk : Nat) :
    ∀ (l : List (Nat × Circuit)) (qs : List Qobj) (ms : AllMappings),
    (l.map Prod.fst).Nodup →
    (cacheCircuitLoop qobj chunk l qs ms).2 = .ok () →
    ∀ p ∈ l, ∃ origExp m,
      qobj.experiments.get? p.1 = some origExp ∧
      matchCircuit p.2 origExp.instructions = .ok m ∧
      ((cacheCircuitLoop qobj chunk l qs ms).1.2.get? chunk).bind
        (fun mc => mc.get? p.1) = some m := by
  intro l
  induction l with
  | nil =>
    intro qs ms hnodup hok p hp
    exact absurd hp (by simp)
  | cons phead rest ih =>
    intro qs ms hnodup hok p hp
    obtain ⟨circ_num, c⟩ := phead
    rw [List.map_cons, List.nodup_cons] at hnodup
    have hnotin : circ_num ∉ rest.map Prod.fst := hnodup.1
    have hrestne : ∀ q ∈ rest, q.1 ≠ circ_num := by
      intro q hq heq
      exact hnotin (List.mem_map.mpr ⟨q, hq, heq⟩)
    cases hqs : qs.get? chunk with
    | none => simp only [cacheCircuitLoop, hqs] at hok; simp at hok
    | some qc =>
      cases hexp : qc.experiments.get? circ_num with
      | none => simp only [cacheCircuitLoop, hqs, hexp] at hok; simp at hok
      | some exp =>
        cases horig : qobj.experiments.get? circ_num with
        | none => simp only [cacheCircuitLoop, hqs, hexp, horig] at hok; simp at hok
        | some origExp =>
          cases hml : matchLoop c (rawGates c.data) origExp.instructions 0
              (buildOpGraph c (rawGates c.data)) [] with
          | error e =>
            simp only [cacheCircuitLoop, hqs, hexp, horig, hml] at hok
            simp at hok
          | ok pair =>
            obtain ⟨og', mapping⟩ := pair
            cases hmc : ms.get? chunk with
            | none =>
              simp only [cacheCircuitLoop, hqs, hexp, horig, hml, hmc] at hok
              simp at hok
            | some msChunk =>
              have hltms : chunk < ms.length := (List.get?_eq_some.mp hmc).1
              by_cases hcl : circ_num < msChunk.length
              · cases hfind : og'.find? (fun kv => 0 < kv.2.length) with
                | some kv =>
                  simp only [cacheCircuitLoop, hqs, hexp, horig, hml, hmc,
                    if_pos hcl, hfind] at hok
                  simp at hok
                | none =>
                  have hmcirc : matchCircuit c origExp.instructions = .ok mapping := by
                    simp only [matchCircuit, hml, hfind]
                  simp only [cacheCircuitLoop, hqs, hexp, horig, hml, hmc,
                    if_pos hcl, hfind] at hok ⊢
                  rcases List.mem_cons.mp hp with hphead | hprest
                  · subst hphead
                    refine ⟨origExp, mapping, horig, hmcirc, ?_⟩
                    rw [cacheCircuitLoop_ms_untouched qobj chunk rest _ _ circ_num hrestne]
                    rw [List.get?_set_eq_of_lt _ hltms]
                    simp [List.getElem?_set_eq hcl]
                  · exact ih _ _ hnodup.2 hok p hprest
              · simp only [cacheCircuitLoop, hqs, hexp, horig, hml, hmc,
                  if_neg hcl] at hok
                simp at hok

theorem cacheCircuitLoop_dom_fail (qobj : Qobj) (chunk : Nat) :
    ∀ (l : List (Nat × Circuit)) (qs : List Qobj) (ms : AllMappings)
      (qc : Qobj) (mc : ChunkMappings),
    qs.get? chunk = some qc →
    (∀ p ∈ l, p.1 < qc.experiments.length) →
    ms.get? chunk = some mc →
    (∀ p ∈ l, p.1 < mc.length) →
    (∀ p ∈ l, ∃ e, qobj.experiments.get? p.1 = some e ∧
      ∀ s, countSig e.instructions s ≤
        (sigIndices p.2 (rawGates p.2.data) s).length) →
    (∃ p ∈ l, ∃ e, qobj.experiments.get? p.1 = some e ∧
      e.instructions.length < (rawGates p.2.data).length) →
    ∃ sig, (cacheCircuitLoop qobj chunk l qs ms).2 = .error (.extraInCircuit sig) := by
  intro l
  induction l with
  | nil =>
    intro qs ms qc mc hqs hqlen hmc hmlen hdomall hex
    obtain ⟨p, hp, -⟩ := hex
    exact absurd hp (by simp)
  | cons phead rest ih =>
    intro qs ms qc mc hqs hqlen hmc hmlen hdomall hex
    obtain ⟨circ_num, c⟩ := phead
    have hheadq : circ_num < qc.experiments.length :=
      hqlen (circ_num, c) (List.mem_cons_self _ _)
    have hheadm : circ_num < mc.length := hmlen (circ_num, c) (List.mem_cons_self _ _)
    obtain ⟨origExp, horig, hdom⟩ := hdomall (circ_num, c) (List.mem_cons_self _ _)
    have hexp : qc.experiments.get? circ_num =
        some (qc.experiments.get ⟨circ_num, hheadq⟩) := List.get?_eq_get hheadq
    obtain ⟨og', m', hrun⟩ :=
      matchLoop_dom_ok c (rawGates c.data) origExp.instructions []
        (buildOpGraph c (rawGates c.data)) []
        (buildOpGraph_char c (rawGates c.data)) (by simpa using hdom)
    simp only [List.length_nil] at hrun
    have hts := matchLoop_totalSize c (rawGates c.data) origExp.instructions 0 _ og' [] m' hrun
    rw [buildOpGraph_totalSize] at hts
    by_cases hshort : origExp.instructions.length < (rawGates c.data).length
    · have hpos : totalSize og' ≠ 0 := by omega
      cases hfind : og'.find? (fun kv => 0 < kv.2.length) with
      | none => exact absurd ((find?_pos_none_iff og').mp hfind) hpos
      | some kv =>
        refine ⟨kv.1, ?_⟩
        simp only [cacheCircuitLoop, hqs, hexp, horig, hrun, hmc, if_pos hheadm, hfind]
    · have hzero : totalSize og' = 0 := by omega
      have hfind : og'.find? (fun kv => 0 < kv.2.length) = none :=
        (find?_pos_none_iff og').mpr hzero
      have hql : chunk < qs.length := (List.get?_eq_some.mp hqs).1
      have hml : chunk < ms.length := (List.get?_eq_some.mp hmc).1
      have hrestex : ∃ p ∈ rest, ∃ e, qobj.experiments.get? p.1 = some e ∧
          e.instructions.length < (rawGates p.2.data).length := by
        obtain ⟨p, hp, e, he, hlt⟩ := hex
        rcases List.mem_cons.mp hp with hphead | hprest
        · exfalso
          rw [hphead] at he hlt
          rw [horig] at he
          cases he
          exact hshort hlt
        · exact ⟨p, hprest, e, he, hlt⟩
      obtain ⟨sig, hrest⟩ := ih
        (qs.set chunk { qc with experiments := (qc.experiments.set circ_num
          { qc.experiments.get ⟨circ_num, hheadq⟩ with header :=
            ({ (qc.experiments.get ⟨circ_num, hheadq⟩).header with
              compiled_circuit_qasm := none }) }) })
        (ms.set chunk (mc.set circ_num m'))
        _ _
        (List.get?_set_eq_of_lt _ hql)
        (by intro p hp
            simp only [List.length_set]
            exact hqlen p (List.mem_cons_of_mem _ hp))
        (List.get?_set_eq_of_lt _ hml)
        (by intro p hp
            simp only [List.length_set]
            exact hmlen p (List.mem_cons_of_mem _ hp))
        (fun p hp => hdomall p (List.mem_cons_of_mem _ hp))
        hrestex
      refine ⟨sig, ?_⟩
      simp only [cacheCircuitLoop, hqs, hexp, horig, hrun, hmc, if_pos hheadm, hfind]
      exact hrest

/-! ## Lemmas about the parameter-rewrite loop (`patchGates`) -/

theorem patchGates_length (raw : List Gate) (mOpt : Option (List Nat)) :
    ∀ (insts : List QobjInstruction) (n : Nat),
    (patchGates raw mOpt n insts).1.length = insts.length := by
  intro insts
  induction insts with
  | nil => intro n; rfl
  | cons inst rest ih =>
    intro n
    cases hpg : patchGates raw mOpt (n + 1) rest with
    | mk rest' r =>
      have hlen : rest'.length = rest.length := by
        have := ih (n + 1)
        rw [hpg] at this
        exact this
      by_cases hs : inst.name = "snapshot"
      · simp only [patchGates, if_pos hs, hpg]
        simp [hlen]
      · cases hm : mOpt with
        | none => simp only [patchGates, if_neg hs]
        | some mapping =>
          cases hget : mapping.get? n with
          | none => simp only [patchGates, if_neg hs, hget]
          | some ci =>
            cases hraw : raw.get? ci with
            | none => simp only [patchGates, if_neg hs, hget, hraw]
            | some g =>
              by_cases hcond : (inst.params.getD []).length = g.param.length ∧
                  inst.name = g.name
              · rw [hm] at hpg
                simp only [patchGates, if_neg hs, hget, hraw, if_pos hcond, hpg]
                simp [hlen]
              · simp only [patchGates, if_neg hs, hget, hraw, if_neg hcond]

theorem patchGates_snapshot (raw : List Gate) (mOpt : Option (List Nat)) :
    ∀ (insts : List QobjInstruction) (n j : Nat) (inst : QobjInstruction),
    insts.get? j = some inst → inst.name = "snapshot" →
    (patchGates raw mOpt n insts).1.get? j = some inst := by
  intro insts
  induction insts with
  | nil =>
    intro n j inst hj
    simp at hj
  | cons hd rest ih =>
    intro n j inst hj hsnap
    cases hpg : patchGates raw mOpt (n + 1) rest with
    | mk rest' r =>
      cases j with
      | zero =>
        simp only [List.get?] at hj
        cases hj
        simp only [patchGates, if_pos hsnap, hpg]
        rfl
      | succ j' =>
        simp only [List.get?] at hj
        have hrec : rest'.get? j' = some inst := by
          have := ih (n + 1) j' inst hj hsnap
          rw [hpg] at this
          exact this
        by_cases hs : hd.name = "snapshot"
        · simp only [patchGates, if_pos hs, hpg]
          simpa using hrec
        · cases hm : mOpt with
          | none =>
            simp only [patchGates, if_neg hs]
            simpa using hj
          | some mapping =>
            cases hget : mapping.get? n with
            | none =>
              simp only [patchGates, if_neg hs, hget]
              simpa using hj
            | some ci =>
              cases hraw : raw.get? ci with
              | none =>
                simp only [patchGates, if_neg hs, hget, hraw]
                simpa using hj
              | some g =>
                by_cases hcond : (hd.params.getD []).length = g.param.length ∧
                    hd.name = g.name
                · rw [hm] at hpg
                  simp only [patchGates, if_neg hs, hget, hraw, if_pos hcond, hpg]
                  simpa using hrec
                · simp only [patchGates, if_neg hs, hget, hraw, if_neg hcond]
                  simpa using hj

theorem patchGates_mismatch_error (raw : List Gate) (mapping : List Nat)
    (n : Nat) (inst : QobjInstruction) (rest : List QobjInstruction)
    (ci : Nat) (g : Gate)
    (hs : ¬inst.name = "snapshot")
    (hget : mapping.get? n = some ci)
    (hraw : raw.get? ci = some g)
    (hcond : ¬((inst.params.getD []).length = g.param.length ∧ inst.name = g.name)) :
    patchGates raw (some mapping) n (inst :: rest) =
      (inst :: rest, .error (.aquaError ci n)) := by
  simp only [patchGates, if_neg hs, hget, hraw, if_neg hcond]

/-! ## Lemmas about `load_qobj_from_cache` and its steps -/

theorem load_ok_exec (fs : Except CacheError CacheFileContent) (s : CacheState)
    (circuits : List Circuit) (chunk : Nat) (s' : CacheState) (q : Qobj)
    (h : load_qobj_from_cache fs s circuits chunk = (s', .ok q)) :
    ∃ qs' qc, s'.qobjs = some qs' ∧ qs'.get? chunk = some qc ∧
      q = { qc with experiments := qc.experiments.take circuits.length } := by
  cases htl : try_loading_cache_from_file fs s with
  | mk s1 r1 =>
    cases r1 with
    | error e =>
      simp only [load_qobj_from_cache, htl] at h
      simp at h
    | ok u =>
      cases u
      cases hrc : reuseChunkStep s1 chunk with
      | mk s2 r2 =>
        cases r2 with
        | error e =>
          simp only [load_qobj_from_cache, htl, hrc] at h
          simp at h
        | ok u2 =>
          cases u2
          cases hq : s2.qobjs with
          | none =>
            simp only [load_qobj_from_cache, htl, hrc, hq] at h
            simp at h
          | some qs =>
            cases hloop : loadLoop s2.try_reusing_qobjs chunk circuits.enum qs
                (s2.mappings.getD []) with
            | mk st r3 =>
              obtain ⟨qs', ms'⟩ := st
              cases r3 with
              | error e =>
                simp only [load_qobj_from_cache, htl, hrc, hq, hloop] at h
                simp at h
              | ok u3 =>
                cases u3
                cases hget : qs'.get? chunk with
                | none =>
                  simp only [load_qobj_from_cache, htl, hrc, hq, hloop, hget] at h
                  simp at h
                | some qc =>
                  simp only [load_qobj_from_cache, htl, hrc, hq, hloop, hget,
                    Prod.mk.injEq, Except.ok.injEq] at h
                  obtain ⟨h1, h2⟩ := h
                  refine ⟨qs', qc, ?_, hget, ?_⟩
                  · rw [← h1]
                  · rw [← h2, ite_self]

theorem reuseChunkStep_spec (s : CacheState) (chunk : Nat)
    (qs : List Qobj) (ms : AllMappings) (q0 : Qobj) (m0 : ChunkMappings)
    (htr : s.try_reusing_qobjs = true)
    (hq : s.qobjs = some qs)
    (hm : s.mappings = some ms)
    (hlen : qs.length ≤ chunk)
    (hq0 : qs.get? 0 = some q0)
    (hm0 : ms.get? 0 = some m0) :
    reuseChunkStep s chunk =
      ({ s with mappings := some (pyInsert ms chunk m0),
                qobjs := some (pyInsert qs chunk q0) }, .ok ()) := by
  simp only [reuseChunkStep, hq, hm, Option.isSome_some, Option.getD_some, hm0, hq0]
  rw [if_pos ⟨htr, trivial, hlen⟩]

theorem reuseExperimentStep_spec (try_reusing : Bool) (circ_num : Nat)
    (qs : List Qobj) (ms : AllMappings) (q0 : Qobj) (e0 : QobjExperiment)
    (mc0 : ChunkMappings) (m00 : Mapping)
    (htr : try_reusing = true) (hpos : 0 < circ_num)
    (hq0 : qs.get? 0 = some q0)
    (hlen : q0.experiments.length ≤ circ_num)
    (he0 : q0.experiments.get? 0 = some e0)
    (hmc : ms.get? 0 = some mc0)
    (hm00 : mc0.get? 0 = some m00) :
    reuseExperimentStep try_reusing 0 circ_num qs ms =
      ((qs.set 0 { q0 with experiments := pyInsert q0.experiments circ_num e0 },
        ms.set 0 (pyInsert mc0 circ_num m00)), .ok ()) := by
  simp only [reuseExperimentStep, htr, hq0, he0, hmc, hm00]
  rw [if_pos ⟨trivial, trivial, hpos⟩, if_pos hlen]

theorem try_loading_fail (fs : Except CacheError CacheFileContent)
    (s : CacheState) (f : String) (e : CacheError)
    (hq : s.qobjs = none) (hf : s.cache_file = some f) (hflen : 0 < f.length)
    (hfs : fs = .error e) :
    try_loading_cache_from_file fs s = (s, .error e) := by
  simp only [try_loading_cache_from_file, hq, hf, if_pos hflen, hfs]

theorem system_fallback_of_fail (fs : Except CacheError CacheFileContent)
    (s : CacheState) (f : String) (e : CacheError)
    (hq : s.qobjs = none) (hf : s.cache_file = some f) (hflen : 0 < f.length)
    (hfs : fs = .error e) :
    system_load_with_fallback fs s = { s with qobjs := none, mappings := none } := by
  rw [system_load_with_fallback, try_loading_fail fs s f e hq hf hflen hfs]

/-! ## Claim theorems -/

/-- Claim C9 (confirmed, spec-modelled): for every attempt to load the cache
from a configured persistence target that fails (missing file or corrupt
blob), `try_loading_cache_from_file` itself raises the failure, and the
system-level wrapper (modelled from the spec, the run layer being outside the
sources) recovers locally: it falls back to an empty in-memory cache and
returns a state instead of propagating the failure. -/
theorem spec_C9 (fs : Except CacheError CacheFileContent) (s : CacheState)
    (f : String) (e : CacheError)
    (hq : s.qobjs = none) (hf : s.cache_file = some f) (hflen : 0 < f.length)
    (hfs : fs = .error e) :
    (try_loading_cache_from_file fs s).2 = .error e ∧
    system_load_with_fallback fs s = { s with qobjs := none, mappings := none } := by
  constructor
  · rw [try_loading_fail fs s f e hq hf hflen hfs]
  · exact system_fallback_of_fail fs s f e hq hf hflen hfs

/-- Witness for C9 at a concrete corrupt-file state. -/
theorem spec_C9_witness :
    (try_loading_cache_from_file fsFail c9State).2 =
      .error (.loadError "corrupt blob") ∧
    system_load_with_fallback fsFail c9State =
      { c9State with qobjs := none, mappings := none } :=
  spec_C9 fsFail c9State "cache.pkl" (.loadError "corrupt blob") rfl rfl
    (by decide) rfl

/-- Claim C7 counterexample: on a compiled instruction whose signature is
absent from the source program, `cache_circuit` fails with an uncaught
`KeyError` (the dict subscript of line 112), not with the structural-mismatch
error the claim states. -/
theorem spec_C7_counterexample :
    (cache_circuit initialCacheState sc7Qobj [sc7Circuit] 0).2 =
      .error (.keyError ("opa", [0])) ∧
    (CacheError.keyError ("opa", [0])).isStructuralMismatch = false := by decide

/-- Claim C7 (amended): during insert, a compiled instruction whose signature
is present in the source but whose FIFO queue is exhausted fails with the
structural-mismatch error (`extraInQobj`); one whose signature is absent from
the source fails with a `KeyError`, which is not a structural-mismatch
error. -/
theorem spec_C7_amended (c : Circuit) (raw : List Gate) (inst : QobjInstruction)
    (rest : List QobjInstruction) (i : Nat) (og : List (Sig × List Nat))
    (mapping : List Nat) :
    (alGet og (instSig inst) = none →
      matchLoop c raw (inst :: rest) i og mapping =
        .error (.keyError (instSig inst)) ∧
      (CacheError.keyError (instSig inst)).isStructuralMismatch = false) ∧
    (alGet og (instSig inst) = some [] →
      matchLoop c raw (inst :: rest) i og mapping =
        .error (.extraInQobj (instSig inst)) ∧
      (CacheError.extraInQobj (instSig inst)).isStructuralMismatch = true) := by
  refine ⟨fun h => ⟨(matchLoop_step_errors c raw inst rest i og mapping).1 h, rfl⟩,
    fun h => ⟨(matchLoop_step_errors c raw inst rest i og mapping).2 h, rfl⟩⟩

/-- Witness for C7 at concrete states: the absent case on `sc7Circuit`'s
op-graph and the exhausted case on an emptied queue. -/
theorem spec_C7_witness :
    (matchLoop sc7Circuit (rawGates sc7Circuit.data) [instA] 0
        (buildOpGraph sc7Circuit (rawGates sc7Circuit.data)) [] =
      .error (.keyError (instSig instA)) ∧
      (CacheError.keyError (instSig instA)).isStructuralMismatch = false) ∧
    (matchLoop sc2Circuit (rawGates sc2Circuit.data) [instA] 2
        [(("opa", [0]), [])] [0, 1] =
      .error (.extraInQobj (instSig instA)) ∧
      (CacheError.extraInQobj (instSig instA)).isStructuralMismatch = true) :=
  ⟨(spec_C7_amended sc7Circuit (rawGates sc7Circuit.data) instA [] 0
      (buildOpGraph sc7Circuit (rawGates sc7Circuit.data)) []).1 (by decide),
   (spec_C7_amended sc2Circuit (rawGates sc2Circuit.data) instA [] 2
      [(("opa", [0]), [])] [0, 1]).2 (by decide)⟩

/-- Claim C3 (confirmed): the Signature Matcher maps, for every signature, the
k-th compiled instruction carrying it to the k-th source operation carrying it
(FIFO order), and on Scenario 1 (`[OpA, OpB, OpA]` compiled order-preserving)
the resulting Mapping is `[0, 1, 2]`. -/
theorem spec_C3 :
    (∀ (c : Circuit) (insts : List QobjInstruction) (m : List Nat),
      matchCircuit c insts = .ok m →
      ∀ j (hj : j < insts.length),
        m.get? j =
          (sigIndices c (rawGates c.data) (instSig (insts.get ⟨j, hj⟩))).get?
            (countSig (insts.take j) (instSig (insts.get ⟨j, hj⟩)))) ∧
    matchCircuit sc1Circuit [instA, instB, instA] = .ok [0, 1, 2] :=
  ⟨fun c insts m h j hj => (matchCircuit_fifo c insts m h j hj).2, by decide⟩

/-- Witness for C3: the FIFO formula evaluated at position 2 of Scenario 1
(the second `OpA` maps to the second source occurrence of its signature). -/
theorem spec_C3_witness :
    ([0, 1, 2] : List Nat).get? 2 =
      (sigIndices sc1Circuit (rawGates sc1Circuit.data)
        (instSig (([instA, instB, instA] : List QobjInstruction).get ⟨2, by decide⟩))).get?
        (countSig (([instA, instB, instA] : List QobjInstruction).take 2)
          (instSig (([instA, instB, instA] : List QobjInstruction).get ⟨2, by decide⟩))) :=
  spec_C3.1 sc1Circuit [instA, instB, instA] [0, 1, 2] spec_C3.2 2 (by decide)

/-- Claim C10 (confirmed): the parameter-rewrite loop of
`load_qobj_from_cache` skips compiled instructions named `snapshot` — their
position in the instruction list is returned unchanged, parameters included —
and this holds on full patch calls in both safe and fast (naughty) mode, whose
rewrite loop is the same `patchGates`. -/
theorem spec_C10 :
    (∀ (raw : List Gate) (mOpt : Option (List Nat))
        (insts : List QobjInstruction) (n j : Nat) (inst : QobjInstruction),
      insts.get? j = some inst → inst.name = "snapshot" →
      (patchGates raw mOpt n insts).1.get? j = some inst) ∧
    ((load_qobj_from_cache fsEmpty c10State [patchCircuit] 0).1.qobjs =
      some [⟨[⟨⟨"cu", none⟩, [⟨"u1", [0], some [7]⟩, snapInst]⟩]⟩] ∧
     (load_qobj_from_cache fsEmpty c10State [patchCircuit] 0).2 =
      .ok ⟨[⟨⟨"cu", none⟩, [⟨"u1", [0], some [7]⟩, snapInst]⟩]⟩) ∧
    ((load_qobj_from_cache fsEmpty c10StateFast [patchCircuit] 0).1.qobjs =
      some [⟨[⟨⟨"cu", none⟩, [⟨"u1", [0], some [7]⟩, snapInst]⟩]⟩] ∧
     (load_qobj_from_cache fsEmpty c10StateFast [patchCircuit] 0).2 =
      .ok ⟨[⟨⟨"cu", none⟩, [⟨"u1", [0], some [7]⟩, snapInst]⟩]⟩) :=
  ⟨fun raw mOpt insts n j inst hj hs => patchGates_snapshot raw mOpt insts n j inst hj hs,
   by decide, by decide⟩

/-- Witness for C10: the general skip property applied at the concrete
template of `c10State` (snapshot at position 1). -/
theorem spec_C10_witness :
    (patchGates (rawGates patchCircuit.data) (some [0]) 0 [u1Tmpl, snapInst]).1.get? 1 =
      some snapInst :=
  spec_C10.1 (rawGates patchCircuit.data) (some [0]) [u1Tmpl, snapInst] 0 1
    snapInst (by decide) (by decide)

/-- Claim C1 counterexample: a safe-mode patch call on a cached chunk mutates
the cached template: after the call the stored qobj holds the freshly patched
parameter `7` instead of the cached `1`. -/
theorem spec_C1_counterexample :
    c1State.naughty_mode = false ∧
    (load_qobj_from_cache fsEmpty c1State [patchCircuit] 0).2 =
      .ok ⟨[⟨⟨"cu", none⟩, [⟨"u1", [0], some [7]⟩]⟩]⟩ ∧
    (load_qobj_from_cache fsEmpty c1State [patchCircuit] 0).1.qobjs ≠
      c1State.qobjs := by decide

/-- Claim C1 (amended): in safe mode the deep copy of the sub-jobs is taken
*after* patching, not before: a successful patch returns the final (already
patched) cached template truncated to the batch size, and the cached template
itself is rewritten in place by the patch — at the concrete input its stored
parameters change from `1` to `7`. -/
theorem spec_C1_amended :
    (∀ (fs : Except CacheError CacheFileContent) (s : CacheState)
        (circuits : List Circuit) (chunk : Nat) (s' : CacheState) (q : Qobj),
      s.naughty_mode = false →
      load_qobj_from_cache fs s circuits chunk = (s', .ok q) →
      ∃ qs' qc, s'.qobjs = some qs' ∧ qs'.get? chunk = some qc ∧
        q = { qc with experiments := qc.experiments.take circuits.length }) ∧
    ((load_qobj_from_cache fsEmpty c1State [patchCircuit] 0).1.qobjs =
      some [⟨[⟨⟨"cu", none⟩, [⟨"u1", [0], some [7]⟩]⟩]⟩] ∧
     c1State.qobjs = some [tmplQobj] ∧
     tmplQobj ≠ ⟨[⟨⟨"cu", none⟩, [⟨"u1", [0], some [7]⟩]⟩]⟩) :=
  ⟨fun fs s circuits chunk s' q _ h => load_ok_exec fs s circuits chunk s' q h,
   by decide⟩

/-- Witness for C1 at the concrete safe-mode patch call. -/
theorem spec_C1_witness :
    ∃ qs' qc,
      (load_qobj_from_cache fsEmpty c1State [patchCircuit] 0).1.qobjs = some qs' ∧
      qs'.get? 0 = some qc ∧
      (⟨[⟨⟨"cu", none⟩, [⟨"u1", [0], some [7]⟩]⟩]⟩ : Qobj) =
        { qc with experiments := qc.experiments.take ([patchCircuit] : List Circuit).length } :=
  spec_C1_amended.1 fsEmpty c1State [patchCircuit] 0
    (load_qobj_from_cache fsEmpty c1State [patchCircuit] 0).1
    ⟨[⟨⟨"cu", none⟩, [⟨"u1", [0], some [7]⟩]⟩]⟩ (by decide) (by decide)

/-- Claim C8 counterexample: a parameter-arity mismatch at gate 1 raises the
gate-mismatch `AquaError` and aborts, but a partial patch *is* left observable
in safe mode: the cached template's gate 0 already holds the fresh parameter
`9`. -/
theorem spec_C8_counterexample :
    c8State.naughty_mode = false ∧
    (load_qobj_from_cache fsEmpty c8State [c8Circuit] 0).2 =
      .error (.aquaError 1 1) ∧
    (load_qobj_from_cache fsEmpty c8State [c8Circuit] 0).1.qobjs =
      some [⟨[⟨⟨"c8", none⟩, [⟨"u1", [0], some [9]⟩, c8Inst1]⟩]⟩] ∧
    (⟨"u1", [0], some [9]⟩ : QobjInstruction) ≠ c8Inst0 := by decide

/-- Claim C8 (amended): whenever the parameter count of a (non-snapshot,
mapping-resolvable) compiled instruction differs from its mapped source
operation's — or their names differ — the rewrite loop raises the gate-mismatch
`AquaError` at that instruction and aborts (no job is returned for the batch);
but the rewrite is in place, so instructions patched before the mismatch keep
their fresh parameter values, observable in the cached template even in safe
mode (shown at the concrete input, where gate 0 retains `9`). -/
theorem spec_C8_amended :
    (∀ (raw : List Gate) (mapping : List Nat) (n : Nat)
        (inst : QobjInstruction) (rest : List QobjInstruction) (ci : Nat) (g : Gate),
      ¬inst.name = "snapshot" →
      mapping.get? n = some ci →
      raw.get? ci = some g →
      ¬((inst.params.getD []).length = g.param.length ∧ inst.name = g.name) →
      patchGates raw (some mapping) n (inst :: rest) =
        (inst :: rest, .error (.aquaError ci n))) ∧
    ((load_qobj_from_cache fsEmpty c8State [c8Circuit] 0).2 =
      .error (.aquaError 1 1) ∧
     (load_qobj_from_cache fsEmpty c8State [c8Circuit] 0).1.qobjs =
      some [⟨[⟨⟨"c8", none⟩, [⟨"u1", [0], some [9]⟩, c8Inst1]⟩]⟩]) :=
  ⟨fun raw mapping n inst rest ci g hs hget hraw hcond =>
    patchGates_mismatch_error raw mapping n inst rest ci g hs hget hraw hcond,
   by decide⟩

/-- Witness for C8: the mismatch step applied at the concrete second gate of
the arity-mismatch scenario. -/
theorem spec_C8_witness :
    patchGates (rawGates c8Circuit.data) (some [0, 1]) 1 [c8Inst1] =
      ([c8Inst1], .error (.aquaError 1 1)) :=
  spec_C8_amended.1 (rawGates c8Circuit.data) [0, 1] 1 c8Inst1 [] 1 c8Gate1
    (by decide) (by decide) (by decide) (by decide)

/-- Claim C6 counterexample: a successful insert at the already-occupied chunk
index 0 does not replace the prior entry: the chunk count grows from 1 to 2
and the prior cached qobj survives, shifted to index 1. -/
theorem spec_C6_counterexample :
    (cache_circuit c1State sc1Qobj [sc1Circuit] 0).2 = .ok () ∧
    ((cache_circuit c1State sc1Qobj [sc1Circuit] 0).1.qobjs.getD []).length = 2 ∧
    (c1State.qobjs.getD []).length = 1 ∧
    ((cache_circuit c1State sc1Qobj [sc1Circuit] 0).1.qobjs.getD []).get? 1 =
      some tmplQobj := by decide

/-- Claim C6 (amended): a successful insert at an occupied chunk index is a
Python `list.insert`, not a replacement: the new entry lands at `chunk`, every
prior entry at an index `≥ chunk` (the occupied one included) is shifted one
position to the right, entries before `chunk` stay put, and the total chunk
count grows by one. -/
theorem spec_C6_amended (s : CacheState) (qobj : Qobj) (circuits : List Circuit)
    (chunk : Nat) (qs : List Qobj)
    (hq : s.qobjs = some qs) (hlt : chunk < qs.length)
    (hok : (cache_circuit s qobj circuits chunk).2 = .ok ()) :
    ((cache_circuit s qobj circuits chunk).1.qobjs.getD []).length = qs.length + 1 ∧
    (∀ i, i < chunk →
      ((cache_circuit s qobj circuits chunk).1.qobjs.getD []).get? i = qs.get? i) ∧
    (∀ i, chunk ≤ i → i < qs.length →
      ((cache_circuit s qobj circuits chunk).1.qobjs.getD []).get? (i + 1) =
        qs.get? i) := by
  have hgetd : s.qobjs.getD [] = qs := by rw [hq]; rfl
  cases hloop : cacheCircuitLoop qobj chunk circuits.enum (pyInsert qs chunk qobj)
      (pyInsert (s.mappings.getD []) chunk (List.replicate circuits.length [])) with
  | mk pair r =>
    obtain ⟨qs2, ms2⟩ := pair
    have hcc : (cache_circuit s qobj circuits chunk).1.qobjs = some qs2 := by
      simp only [cache_circuit, hgetd, hloop]
    have hlens := cacheCircuitLoop_lengths qobj chunk circuits.enum
      (pyInsert qs chunk qobj)
      (pyInsert (s.mappings.getD []) chunk (List.replicate circuits.length []))
    rw [hloop] at hlens
    have hother := cacheCircuitLoop_other qobj chunk circuits.enum
      (pyInsert qs chunk qobj)
      (pyInsert (s.mappings.getD []) chunk (List.replicate circuits.length []))
    rw [hcc]
    simp only [Option.getD_some]
    refine ⟨?_, ?_, ?_⟩
    · rw [hlens.1, pyInsert_length]
    · intro i hi
      have h1 := hother i (by omega)
      rw [hloop] at h1
      rw [h1.1, pyInsert_get?_lt qs chunk qobj i hi (by omega)]
    · intro i hi1 hi2
      have h1 := hother (i + 1) (by omega)
      rw [hloop] at h1
      rw [h1.1, pyInsert_get?_succ qs chunk qobj i (by omega) hi1]

/-- Witness for C6 at the concrete occupied-slot insert. -/
theorem spec_C6_witness :
    ((cache_circuit c1State sc1Qobj [sc1Circuit] 0).1.qobjs.getD []).length = 2 ∧
    (∀ i, i < 0 →
      ((cache_circuit c1State sc1Qobj [sc1Circuit] 0).1.qobjs.getD []).get? i =
        [tmplQobj].get? i) ∧
    (∀ i, 0 ≤ i → i < 1 →
      ((cache_circuit c1State sc1Qobj [sc1Circuit] 0).1.qobjs.getD []).get? (i + 1) =
        [tmplQobj].get? i) := by
  have h := spec_C6_amended c1State sc1Qobj [sc1Circuit] 0 [tmplQobj]
    (by decide) (by decide) (by decide)
  simpa using h

/-- Claim C5 counterexample: a patch call at chunk index 2 with only chunk 0
cached does *not* duplicate chunk 0 into position 2 — the copy lands at the
end (index 1), position 2 stays absent, and the call then fails with an
`IndexError`. -/
theorem spec_C5_counterexample :
    (load_qobj_from_cache fsEmpty c1State [patchCircuit] 2).2 =
      .error .indexError ∧
    ((load_qobj_from_cache fsEmpty c1State [patchCircuit] 2).1.qobjs.getD []).length = 2 ∧
    ((load_qobj_from_cache fsEmpty c1State [patchCircuit] 2).1.qobjs.getD []).get? 2 =
      none := by decide

/-- Claim C5 (amended): the capacity-extension step duplicates chunk 0's job
(deep copy) and mapping (verbatim) by a Python `list.insert` at `chunk`, which
clamps to the end of the list — so the duplicate lands at `chunk_idx` exactly
when `chunk_idx` is the next free index (the current chunk count); the chunk-0
slot-filling step duplicates slot 0's compiled sub-job and mapping into the
next missing slot the same way; and on Scenario 3 (chunk 0 with 2 cached
slots, batch of 5) the patch succeeds with slots 2–4 filled from slot 0. -/
theorem spec_C5_amended :
    (∀ (s : CacheState) (chunk : Nat) (qs : List Qobj) (ms : AllMappings)
        (q0 : Qobj) (m0 : ChunkMappings),
      s.try_reusing_qobjs = true → s.qobjs = some qs → s.mappings = some ms →
      qs.length ≤ chunk → qs.get? 0 = some q0 → ms.get? 0 = some m0 →
      reuseChunkStep s chunk =
        ({ s with mappings := some (pyInsert ms chunk m0),
                  qobjs := some (pyInsert qs chunk q0) }, .ok ()) ∧
      (chunk = qs.length → (pyInsert qs chunk q0).get? chunk = some q0) ∧
      (chunk = ms.length → (pyInsert ms chunk m0).get? chunk = some m0)) ∧
    (∀ (try_reusing : Bool) (circ_num : Nat) (qs : List Qobj) (ms : AllMappings)
        (q0 : Qobj) (e0 : QobjExperiment) (mc0 : ChunkMappings) (m00 : Mapping),
      try_reusing = true → 0 < circ_num →
      qs.get? 0 = some q0 → q0.experiments.length ≤ circ_num →
      q0.experiments.get? 0 = some e0 → ms.get? 0 = some mc0 →
      mc0.get? 0 = some m00 →
      reuseExperimentStep try_reusing 0 circ_num qs ms =
        ((qs.set 0 { q0 with experiments := pyInsert q0.experiments circ_num e0 },
          ms.set 0 (pyInsert mc0 circ_num m00)), .ok ()) ∧
      (circ_num = q0.experiments.length →
        (pyInsert q0.experiments circ_num e0).get? circ_num = some e0) ∧
      (circ_num = mc0.length →
        (pyInsert mc0 circ_num m00).get? circ_num = some m00)) ∧
    ((load_qobj_from_cache fsEmpty s3State
        [patchCircuit, patchCircuit, patchCircuit, patchCircuit, patchCircuit] 0).2 =
      .ok ⟨List.replicate 5 ⟨⟨"cu", none⟩, [⟨"u1", [0], some [7]⟩]⟩⟩ ∧
     (load_qobj_from_cache fsEmpty s3State
        [patchCircuit, patchCircuit, patchCircuit, patchCircuit, patchCircuit] 0).1.mappings =
      some [[[0], [0], [0], [0], [0]]]) := by
  refine ⟨?_, ?_, by decide⟩
  · intro s chunk qs ms q0 m0 htr hq hm hlen hq0 hm0
    exact ⟨reuseChunkStep_spec s chunk qs ms q0 m0 htr hq hm hlen hq0 hm0,
      fun he => pyInsert_get?_self qs chunk q0 (le_of_eq he),
      fun he => pyInsert_get?_self ms chunk m0 (le_of_eq he)⟩
  · intro try_reusing circ_num qs ms q0 e0 mc0 m00 htr hpos hq0 hlen he0 hmc hm00
    exact ⟨reuseExperimentStep_spec try_reusing circ_num qs ms q0 e0 mc0 m00
        htr hpos hq0 hlen he0 hmc hm00,
      fun he => pyInsert_get?_self q0.experiments circ_num e0 (le_of_eq he),
      fun he => pyInsert_get?_self mc0 circ_num m00 (le_of_eq he)⟩

/-- Witness for C5: chunk duplication at the next free index (chunk 1 of a
one-chunk cache) and slot duplication at the next missing slot. -/
theorem spec_C5_witness :
    (reuseChunkStep c1State 1 =
      ({ c1State with mappings := some (pyInsert [[[0]]] 1 [[0]]),
                      qobjs := some (pyInsert [tmplQobj] 1 tmplQobj) }, .ok ()) ∧
     (1 = [tmplQobj].length →
       (pyInsert [tmplQobj] 1 tmplQobj).get? 1 = some tmplQobj) ∧
     (1 = [[[0]]].length → (pyInsert [[[0]]] 1 [[0]]).get? 1 = some [[0]])) :=
  spec_C5_amended.1 c1State 1 [tmplQobj] [[[0]]] tmplQobj [[0]]
    (by decide) (by decide) (by decide) (by decide) (by decide) (by decide)

theorem mem_enum_self (l : List α) (j : Nat) (hj : j < l.length) :
    (j, l.get ⟨j, hj⟩) ∈ l.enum := by
  rw [List.mem_iff_get?]
  refine ⟨j, ?_⟩
  rw [List.get?_enum, List.get?_eq_get hj]
  rfl

theorem instsAt_eq (qobj : Qobj) (j : Nat) (e : QobjExperiment)
    (h : qobj.experiments.get? j = some e) : instsAt qobj j = e.instructions := by
  rw [instsAt, h]
  rfl

/-- Claim C2 counterexample: Scenario 2 (`[OpA, OpA]` compiled with one `OpA`
missing) makes `cache_circuit` fail with the structural-mismatch error, but
the Cache Store is *not* left unchanged: the chunk count grows from 0 to 1
(the partially built chunk stays inserted). -/
theorem spec_C2_counterexample :
    (cache_circuit initialCacheState sc2Qobj [sc2Circuit] 0).2 =
      .error (.extraInCircuit ("opa", [0])) ∧
    ((cache_circuit initialCacheState sc2Qobj [sc2Circuit] 0).1.qobjs.getD []).length = 1 ∧
    (initialCacheState.qobjs.getD []).length = 0 := by decide

/-- Claim C2 (amended): when the compiled sub-job of some program slot is
missing an instruction for a signature present in the source (every compiled
signature occurs in the source with at least its compiled multiplicity, and
some slot has strictly fewer compiled instructions than source operations),
`cache_circuit` fails with the structural-mismatch error — but the Cache Store
is modified: the deep-copied qobj and the partially built mappings entry are
inserted before matching, so both chunk lists grow by one even on the failed
insert. -/
theorem spec_C2_amended (s : CacheState) (qobj : Qobj)
    (circuits : List Circuit) (chunk : Nat)
    (h1 : chunk ≤ (s.qobjs.getD []).length)
    (h2 : chunk ≤ (s.mappings.getD []).length)
    (h3 : circuits.length ≤ qobj.experiments.length)
    (h4 : ∀ j, ∀ hj : j < circuits.length, ∀ inst ∈ instsAt qobj j,
      countSig (instsAt qobj j) (instSig inst) ≤
        (sigIndices (circuits.get ⟨j, hj⟩) (rawGates (circuits.get ⟨j, hj⟩).data)
          (instSig inst)).length)
    (h5 : ∃ j, ∃ hj : j < circuits.length,
      (instsAt qobj j).length < (rawGates (circuits.get ⟨j, hj⟩).data).length) :
    ∃ sig, (cache_circuit s qobj circuits chunk).2 = .error (.extraInCircuit sig) ∧
      ((cache_circuit s qobj circuits chunk).1.qobjs.getD []).length =
        (s.qobjs.getD []).length + 1 ∧
      ((cache_circuit s qobj circuits chunk).1.mappings.getD []).length =
        (s.mappings.getD []).length + 1 := by
  have hq : (pyInsert (s.qobjs.getD []) chunk qobj).get? chunk = some qobj :=
    pyInsert_get?_self _ _ _ h1
  have hm : (pyInsert (s.mappings.getD []) chunk
        (List.replicate circuits.length [])).get? chunk =
      some (List.replicate circuits.length []) :=
    pyInsert_get?_self _ _ _ h2
  have hqlen : ∀ p ∈ circuits.enum, p.1 < qobj.experiments.length := by
    intro p hp
    have := List.fst_lt_of_mem_enum hp
    omega
  have hmlen : ∀ p ∈ circuits.enum,
      p.1 < (List.replicate circuits.length ([] : Mapping)).length := by
    intro p hp
    simpa using List.fst_lt_of_mem_enum hp
  have hdomall : ∀ p ∈ circuits.enum, ∃ e, qobj.experiments.get? p.1 = some e ∧
      ∀ sg, countSig e.instructions sg ≤
        (sigIndices p.2 (rawGates p.2.data) sg).length := by
    intro p hp
    have hlt : p.1 < circuits.length := List.fst_lt_of_mem_enum hp
    have hltq : p.1 < qobj.experiments.length := by omega
    refine ⟨qobj.experiments.get ⟨p.1, hltq⟩, List.get?_eq_get hltq, ?_⟩
    have hpc : circuits.get ⟨p.1, hlt⟩ = p.2 := by
      have hg := List.mem_enum_iff_get?.mp hp
      rw [List.get?_eq_get hlt] at hg
      exact Option.some_injective _ hg
    have hins : instsAt qobj p.1 = (qobj.experiments.get ⟨p.1, hltq⟩).instructions :=
      instsAt_eq qobj p.1 _ (List.get?_eq_get hltq)
    have hb := h4 p.1 hlt
    rw [hpc, hins] at hb
    exact dom_of_bounded p.2 (rawGates p.2.data) _ hb
  have hex : ∃ p ∈ circuits.enum, ∃ e, qobj.experiments.get? p.1 = some e ∧
      e.instructions.length < (rawGates p.2.data).length := by
    obtain ⟨j, hj, hlt⟩ := h5
    have hltq : j < qobj.experiments.length := by omega
    refine ⟨(j, circuits.get ⟨j, hj⟩), mem_enum_self circuits j hj,
      qobj.experiments.get ⟨j, hltq⟩, List.get?_eq_get hltq, ?_⟩
    have hins := instsAt_eq qobj j _ (List.get?_eq_get hltq)
    rw [← hins]
    exact hlt
  obtain ⟨sig, herr⟩ := cacheCircuitLoop_dom_fail qobj chunk circuits.enum
    (pyInsert (s.qobjs.getD []) chunk qobj)
    (pyInsert (s.mappings.getD []) chunk (List.replicate circuits.length []))
    qobj (List.replicate circuits.length []) hq hqlen hm hmlen hdomall hex
  cases hloop : cacheCircuitLoop qobj chunk circuits.enum
      (pyInsert (s.qobjs.getD []) chunk qobj)
      (pyInsert (s.mappings.getD []) chunk (List.replicate circuits.length [])) with
  | mk pair r =>
    obtain ⟨qs2, ms2⟩ := pair
    rw [hloop] at herr
    have hlens := cacheCircuitLoop_lengths qobj chunk circuits.enum
      (pyInsert (s.qobjs.getD []) chunk qobj)
      (pyInsert (s.mappings.getD []) chunk (List.replicate circuits.length []))
    rw [hloop] at hlens
    refine ⟨sig, ?_, ?_, ?_⟩
    · simp only [cache_circuit, hloop]
      exact herr
    · simp only [cache_circuit, hloop, Option.getD_some]
      have := hlens.1
      simp only at this
      rw [this, pyInsert_length]
    · simp only [cache_circuit, hloop, Option.getD_some]
      have := hlens.2
      simp only at this
      rw [this, pyInsert_length]

/-- Witness for C2 at the Scenario-2 input. -/
theorem spec_C2_witness :
    ∃ sig, (cache_circuit initialCacheState sc2Qobj [sc2Circuit] 0).2 =
      .error (.extraInCircuit sig) ∧
      ((cache_circuit initialCacheState sc2Qobj [sc2Circuit] 0).1.qobjs.getD []).length =
        (initialCacheState.qobjs.getD []).length + 1 ∧
      ((cache_circuit initialCacheState sc2Qobj [sc2Circuit] 0).1.mappings.getD []).length =
        (initialCacheState.mappings.getD []).length + 1 :=
  spec_C2_amended initialCacheState sc2Qobj [sc2Circuit] 0
    (by decide) (by decide) (by decide) (by decide) ⟨0, by decide, by decide⟩

/-- Claim C4 counterexample: a successful insert of a program whose only
operation carries no parameters stores the mapping `[0]` — its length is 1,
not the number of parameterized source operations (0), so the stored Mapping
is not a bijection onto only the parameterized indices. -/
theorem spec_C4_counterexample :
    (cache_circuit initialCacheState sc4Qobj [sc4Circuit] 0).2 = .ok () ∧
    ((cache_circuit initialCacheState sc4Qobj [sc4Circuit] 0).1.mappings.getD []).get? 0 =
      some [[0]] ∧
    countParameterized (rawGates sc4Circuit.data) = 0 ∧
    ([0] : List Nat).length ≠ countParameterized (rawGates sc4Circuit.data) := by
  decide

/-- Claim C4 (amended): for every successful insert, every stored per-program
Mapping is a bijection onto *all* source-operation indices (parameterized or
not): its length equals the number of source operations (which equals the
compiled instruction count), the mapped indices are pairwise distinct and
cover exactly `0..n-1`, and every mapped compiled instruction has the same
structural signature as its mapped source operation. -/
theorem spec_C4_amended (s : CacheState) (qobj : Qobj)
    (circuits : List Circuit) (chunk : Nat) (s' : CacheState)
    (hcc : cache_circuit s qobj circuits chunk = (s', .ok ())) :
    ∀ j (hj : j < circuits.length), ∃ origExp m,
      qobj.experiments.get? j = some origExp ∧
      ((s'.mappings.getD []).get? chunk).bind (fun mc => mc.get? j) = some m ∧
      origExp.instructions.length = (rawGates (circuits.get ⟨j, hj⟩).data).length ∧
      m.length = (rawGates (circuits.get ⟨j, hj⟩).data).length ∧
      m.Nodup ∧
      m.toFinset = Finset.range (rawGates (circuits.get ⟨j, hj⟩).data).length ∧
      ∀ i (hi : i < origExp.instructions.length), ∃ x g,
        m.get? i = some x ∧
        (rawGates (circuits.get ⟨j, hj⟩).data).get? x = some g ∧
        gateSig (circuits.get ⟨j, hj⟩) g =
          instSig (origExp.instructions.get ⟨i, hi⟩) := by
  intro j hj
  cases hloop : cacheCircuitLoop qobj chunk circuits.enum
      (pyInsert (s.qobjs.getD []) chunk qobj)
      (pyInsert (s.mappings.getD []) chunk (List.replicate circuits.length [])) with
  | mk pair r =>
    obtain ⟨qs2, ms2⟩ := pair
    have hcc' : cache_circuit s qobj circuits chunk =
        ({ s with qobjs := some qs2, mappings := some ms2 }, r) := by
      simp only [cache_circuit, hloop]
    rw [hcc'] at hcc
    have hs' : ({ s with qobjs := some qs2, mappings := some ms2 } : CacheState) = s' :=
      congrArg Prod.fst hcc
    have hr : r = .ok () := congrArg Prod.snd hcc
    have hok : (cacheCircuitLoop qobj chunk circuits.enum
        (pyInsert (s.qobjs.getD []) chunk qobj)
        (pyInsert (s.mappings.getD []) chunk (List.replicate circuits.length []))).2 =
        .ok () := by
      rw [hloop]
      exact hr
    have hnodup : (circuits.enum.map Prod.fst).Nodup := by
      rw [List.enum_map_fst]
      exact List.nodup_range _
    obtain ⟨origExp, m, horig, hmc, hstored⟩ :=
      cacheCircuitLoop_ok_stored qobj chunk circuits.enum _ _ hnodup hok
        (j, circuits.get ⟨j, hj⟩) (mem_enum_self circuits j hj)
    rw [hloop] at hstored
    have hms' : s'.mappings = some ms2 := by
      rw [← hs']
    have hlens := matchCircuit_lengths (circuits.get ⟨j, hj⟩) origExp.instructions m hmc
    refine ⟨origExp, m, horig, ?_, hlens.1, by omega, 
      matchCircuit_nodup _ _ _ hmc, matchCircuit_toFinset _ _ _ hmc, ?_⟩
    · rw [hms']
      exact hstored
    · intro i hi
      exact matchCircuit_sig_preserved (circuits.get ⟨j, hj⟩) origExp.instructions m hmc i hi

/-- Witness for C4 at the Scenario-1 insert. -/
theorem spec_C4_witness :
    ∃ origExp m,
      sc1Qobj.experiments.get? 0 = some origExp ∧
      ((((cache_circuit initialCacheState sc1Qobj [sc1Circuit] 0).1).mappings.getD
          []).get? 0).bind (fun mc => mc.get? 0) = some m ∧
      origExp.instructions.length =
        (rawGates (([sc1Circuit].get ⟨0, by decide⟩).data)).length ∧
      m.length = (rawGates (([sc1Circuit].get ⟨0, by decide⟩).data)).length ∧
      m.Nodup ∧
      m.toFinset = Finset.range (rawGates (([sc1Circuit].get ⟨0, by decide⟩).data)).length ∧
      ∀ i (hi : i < origExp.instructions.length), ∃ x g,
        m.get? i = some x ∧
        (rawGates (([sc1Circuit].get ⟨0, by decide⟩).data)).get? x = some g ∧
        gateSig ([sc1Circuit].get ⟨0, by decide⟩) g =
          instSig (origExp.instructions.get ⟨i, hi⟩) :=
  spec_C4_amended initialCacheState sc1Qobj [sc1Circuit] 0
    (cache_circuit initialCacheState sc1Qobj [sc1Circuit] 0).1 (by decide) 0 (by decide)
